import Mathlib

/-!
Verification of the sec-edgar-downloader core against its specification.

Python strings are embedded as `List Char`; fallible code returns `Option`
or `Except`.  Every definition is a direct translation of the corresponding
function in `src/sec_edgar_downloader/`.
-/

namespace SecEdgar

/-- Convert a string literal to the character-list embedding of Python `str`. -/
def pys (s : String) : List Char := s.data

/-- Python `str.split(sep)` for a one-character separator
(`accession_number.split('-')` in `UrlComponent.py`, `key.split('|')` in `_utils.py`).
`"".split(sep) = [""]`, and separators at the ends produce empty components,
exactly as in Python. -/
def splitOnChar (sep : Char) : List Char → List (List Char)
  | [] => [[]]
  | c :: cs =>
    if c = sep then [] :: splitOnChar sep cs
    else
      match splitOnChar sep cs with
      | [] => [[c]]
      | h :: t => (c :: h) :: t

/-- Python `str.lstrip('0')` (`split[0].lstrip('0')` in `parse_accession_number`). -/
def lstrip0 : List Char → List Char
  | [] => []
  | c :: cs => if c = '0' then lstrip0 cs else c :: cs

/-- `'0' * (10 - len(short_cik)) + short_cik` from
`AccessionNumber.create_from_components` (`UrlComponent.py` line 103-104);
Python's `'0' * n` is empty for non-positive `n`, matching truncated
subtraction on `Nat`. -/
def zeroPad10 (s : List Char) : List Char := List.replicate (10 - s.length) '0' ++ s

/-- The three components held by an `AccessionNumber` object
(`short_cik`, `year`, `annual_sequence` in `UrlComponent.py`). -/
structure AccParts where
  short_cik : List Char
  year : List Char
  annual_sequence : List Char
deriving DecidableEq

/-- `AccessionNumber.parse_accession_number` (`UrlComponent.py` lines 88-95):
split on `'-'`, strip leading zeros from the firm component, prefix `"20"` to
the two-digit year, take the third component as the sequence.  Fewer than
three dash-separated parts raises `IndexError`, embedded as `none`. -/
def parse_accession_number (s : List Char) : Option AccParts :=
  match splitOnChar '-' s with
  | p0 :: p1 :: p2 :: _ => some ⟨lstrip0 p0, '2' :: ('0' :: p1), p2⟩
  | _ => none

/-- `AccessionNumber.verify_components_meet_requirements`
(`UrlComponent.py` lines 109-118): the firm component must have length
strictly between 1 and 10, the year exactly 4 characters starting `"20"`,
the sequence exactly 6 characters.  (All components are strings by
construction, so the `type(...)==str` checks are vacuous here.) -/
def verify_components_meet_requirements (p : AccParts) : Bool :=
  (decide (p.short_cik.length < 10) && decide (1 < p.short_cik.length))
    && (decide (p.year.length = 4) && decide (p.year.take 2 = ['2', '0']))
    && decide (p.annual_sequence.length = 6)

/-- `AccessionNumber.create_from_components` (`UrlComponent.py` lines 97-107):
re-assemble the long form `long_cik + '-' + year[2:4] + '-' + annual_sequence`;
raises `TypeError` (embedded as `none`) when verification fails. -/
def create_from_components (p : AccParts) : Option (List Char) :=
  if verify_components_meet_requirements p = false then none
  else
    some (zeroPad10 p.short_cik ++ ('-' :: (((p.year.drop 2).take 2) ++ ('-' :: p.annual_sequence))))

/-- `AccessionNumber.__init__` with a string argument (`UrlComponent.py`
lines 63-83): parse, then verify; the object is constructed only when the
components meet the requirements, otherwise `TypeError` is raised. -/
def accessionNumber_init (s : List Char) : Option AccParts :=
  (parse_accession_number s).bind
    (fun p => if verify_components_meet_requirements p then some p else none)

/-- Parsing followed by re-formatting through `create_from_components`:
the canonicalization pipeline of the spec's `format(parse(s))`. -/
def canonicalize (s : List Char) : Option (List Char) :=
  (parse_accession_number s).bind create_from_components

/-- The `DocumentMetadata` namedtuple (declared in `_constants.py`, which is
not under `src/`; the fields are reconstructed from its construction site in
`Filing._get_filing_documents` and its uses across the repository).  The
Python `Type` field is spelled `Type_` because `Type` is reserved in Lean.
`FS_Location` is `None` until the document has been downloaded. -/
structure DocumentMetadata where
  Seq : List Char
  Description : List Char
  Document : List Char
  Type_ : List Char
  Size : List Char
  URL : List Char
  Extension : List Char
  FS_Location : Option (List Char)
  Report_date : List Char
deriving DecidableEq

/-- The slice of a `UrlComponent.Filing` object used by the storage layer:
the identity fields feeding `create_key` and the document list. -/
structure Filing where
  short_cik : List Char
  accession_number : List Char
  document_metadata_list : List DocumentMetadata
deriving DecidableEq

/-- `Filing.create_key` (`UrlComponent.py` lines 392-397):
`short_cik + '|' + accession string`. -/
def Filing.create_key (f : Filing) : List Char :=
  f.short_cik ++ ('|' :: f.accession_number)

/-- Python `dict[k]` lookup on an insertion-ordered key/value list. -/
def odLookup {α : Type} : List (List Char × α) → List Char → Option α
  | [], _ => none
  | kv :: rest, k => if kv.1 = k then some kv.2 else odLookup rest k

/-- The removal part of Python `dict.pop(k)`. -/
def odPop {α : Type} : List (List Char × α) → List Char → List (List Char × α)
  | [], _ => []
  | kv :: rest, k => if kv.1 = k then odPop rest k else kv :: odPop rest k

/-- In-place value replacement for an existing key: the entry keeps its
position in the ordered dict. -/
def odReplace {α : Type} : List (List Char × α) → List Char → α → List (List Char × α)
  | [], _, _ => []
  | kv :: rest, k, v =>
    if kv.1 = k then (k, v) :: odReplace rest k v else kv :: odReplace rest k v

/-- Python `d[k] = v` on a dict: replace in place when the key exists,
append at the end otherwise. -/
def odSet {α : Type} (m : List (List Char × α)) (k : List Char) (v : α) :
    List (List Char × α) :=
  if k ∈ m.map Prod.fst then odReplace m k v else m ++ [(k, v)]

/-- Number of entries stored under a key. -/
def countKey {α : Type} : List (List Char × α) → List Char → Nat
  | [], _ => 0
  | kv :: rest, k => (if kv.1 = k then 1 else 0) + countKey rest k

/-- `FilingStorage.__FilingSet`: the ordered key → Filing mapping. -/
abbrev FilingSet := List (List Char × Filing)

/-- `FilingStorage.add_record` with a single record (`FilingStorage.py`
lines 101-120): insert under `record.create_key()` by plain dict assignment
(`self.__FilingSet[key] = record`).  A record with a falsy (empty)
`short_cik` falls through every branch to `raise TypeError`; the
`accession_number` attribute is an always-truthy object in the source, so
only `short_cik` decides truthiness. -/
def add_record (m : FilingSet) (record : Filing) : Option FilingSet :=
  if record.short_cik ≠ [] then some (odSet m record.create_key record) else none

/-- Python `list.index(x)`: index of the first element equal to `x`, or
`ValueError` (`none`) when `x` is absent. -/
def indexOfDoc : List DocumentMetadata → DocumentMetadata → Option Nat
  | [], _ => none
  | d :: rest, target =>
    if d = target then some 0 else (indexOfDoc rest target).map (· + 1)

/-- `FilingStorage.modify_document_in_record` (`FilingStorage.py` lines
180-191): look the record up (`KeyError` when the key is absent), locate
the first document equal to `orig_document` (`ValueError` when absent),
replace it in a copy of the record, then pop the key and re-insert the new
record — which moves the entry to the end of the ordered dict. -/
def modify_document_in_record (m : FilingSet) (file_key : List Char)
    (orig_document new_document : DocumentMetadata) : Option FilingSet :=
  (odLookup m file_key).bind fun orig_rec =>
    (indexOfDoc orig_rec.document_metadata_list orig_document).bind fun idx =>
      some (odPop m file_key
        ++ [(file_key, { orig_rec with
              document_metadata_list :=
                orig_rec.document_metadata_list.set idx new_document })])

/-- Python `s.split()[0]`: the first whitespace-separated word of a string,
`IndexError` (`none`) when there is none (`doc.Document.split()[0]` in
`sync_with_filesystem`). -/
def firstWord (s : List Char) : Option (List Char) :=
  match (s.dropWhile Char.isWhitespace).takeWhile (fun c => !c.isWhitespace) with
  | [] => none
  | w => some w

/-- The name → path dictionary built by `get_all_file_path` inside
`FilingStorage.sync_with_filesystem` from the deepest level of the download
tree.  The directory walk is filesystem I/O, so the resulting mapping is a
parameter of the embedding. -/
abbrev FsMap := List (List Char × List Char)

/-- The per-document effect of one `sync_with_filesystem` iteration:
`doc._replace(FS_Location=downloaded_docs[doc_name])` when the first word of
`doc.Document` names a file on disk, the document unchanged otherwise. -/
def syncDoc (f : FsMap) (d : DocumentMetadata) : DocumentMetadata :=
  match (firstWord d.Document).bind (odLookup f) with
  | none => d
  | some p => { d with FS_Location := some p }

/-- One iteration of the inner loop of `sync_with_filesystem`
(`FilingStorage.py` lines 238-242): `doc.Document.split()[0]` (an uncaught
`IndexError` when there is no word), dictionary membership test, and the
`modify_document_in_record` call for a matching document. -/
def syncStep (f : FsMap) (file_key : List Char) (m : FilingSet) (d : DocumentMetadata) :
    Option FilingSet :=
  (firstWord d.Document).bind fun w =>
    match odLookup f w with
    | none => some m
    | some p => modify_document_in_record m file_key d { d with FS_Location := some p }

/-- Inner loop of `sync_with_filesystem` (`FilingStorage.py` lines 237-242):
walk one snapshot record's document list, updating the live store. -/
def syncDocsLoop (f : FsMap) (file_key : List Char) :
    FilingSet → List DocumentMetadata → Option FilingSet
  | m, [] => some m
  | m, d :: rest =>
    (syncStep f file_key m d).bind fun m1 => syncDocsLoop f file_key m1 rest

/-- Outer loop of `sync_with_filesystem`: iterate over the deep-copied
snapshot of the record list (`recs = copy.deepcopy(list(...))`). -/
def syncRecsLoop (f : FsMap) : FilingSet → List (List Char × Filing) → Option FilingSet
  | m, [] => some m
  | m, (k, r) :: rest =>
    (syncDocsLoop f k m r.document_metadata_list).bind fun m1 => syncRecsLoop f m1 rest

/-- `FilingStorage.sync_with_filesystem` (`FilingStorage.py` lines 212-245)
with the on-disk name → path map as a parameter: the snapshot iterated over
is the store itself at entry. -/
def sync_with_filesystem (m : FilingSet) (f : FsMap) : Option FilingSet :=
  syncRecsLoop f m m

/-- `ROOT_SAVE_FOLDER_NAME` from `_constants.py`.  Modelled from the spec:
`_constants.py` is not under `src/`; the spec and the commented-out
`search_filings` code name the download root `sec-edgar-filings`.  Its exact
value does not affect any claim. -/
def ROOT_SAVE_FOLDER_NAME : List Char := pys ("sec-edgar-filings")

/-- `base_url = 'https://www.sec.gov'` in `download_urls` (`_utils.py` line 351). -/
def dl_base_url : List Char := pys ("https://www.sec.gov")

/-- The save path `download_folder / ROOT_SAVE_FOLDER_NAME / cik / acc_no /
doc.Document` built in `download_urls` (`_utils.py` lines 376-383), with
path joins embedded as slash-separated concatenation. -/
def mkSavePath (folder cik acc_no doc_name : List Char) : List Char :=
  folder ++ ('/' :: (ROOT_SAVE_FOLDER_NAME
    ++ ('/' :: (cik ++ ('/' :: (acc_no ++ ('/' :: doc_name)))))))

/-- The `{'new', 'previous', 'fail'}` dictionary returned by `download_urls`
plus the run's effect traces: every URL requested and every `(path, bytes)`
file write, in order. -/
structure DownloadResult where
  newDocs : List DocumentMetadata
  previousDocs : List DocumentMetadata
  failDocs : List DocumentMetadata
  fetched : List (List Char)
  written : List (List Char × List Char)
deriving DecidableEq

/-- `download_urls` (`_utils.py` lines 345-404).  The HTTP layer is the
parameter `fetch : url → Option content`; `none` is the
`requests.exceptions.HTTPError` branch caught by the loop.  Per tuple
`(key, doc)`: the key is unpacked into exactly three `'|'`-parts (an
uncaught `ValueError` otherwise), documents with a set `FS_Location` are
appended to the previous-list untouched, the rest are fetched, written to
the save path, and recorded through `modify_document_in_record` (whose
failure is an uncaught exception). -/
def download_urls (folder : List Char) (fetch : List Char → Option (List Char)) :
    FilingSet → List (List Char × DocumentMetadata) → Option (FilingSet × DownloadResult)
  | m, [] => some (m, ⟨[], [], [], [], []⟩)
  | m, (key, doc) :: rest =>
    match splitOnChar '|' key with
    | [cik, acc_no, _doc_seq] =>
      match doc.FS_Location with
      | none =>
        match fetch (dl_base_url ++ doc.URL) with
        | some content =>
          (modify_document_in_record m (cik ++ ('|' :: acc_no)) doc
              { doc with
                FS_Location := some (mkSavePath folder cik acc_no doc.Document) }).bind
            fun m1 =>
              (download_urls folder fetch m1 rest).bind fun mr =>
                some (mr.1, { mr.2 with
                  newDocs := { doc with
                    FS_Location := some (mkSavePath folder cik acc_no doc.Document) }
                      :: mr.2.newDocs,
                  fetched := (dl_base_url ++ doc.URL) :: mr.2.fetched,
                  written := (mkSavePath folder cik acc_no doc.Document, content)
                      :: mr.2.written })
        | none =>
          (download_urls folder fetch m rest).bind fun mr =>
            some (mr.1, { mr.2 with
              failDocs := doc :: mr.2.failDocs,
              fetched := (dl_base_url ++ doc.URL) :: mr.2.fetched })
      | some _ =>
        (download_urls folder fetch m rest).bind fun mr =>
          some (mr.1, { mr.2 with previousDocs := doc :: mr.2.previousDocs })
    | _ => none

/-- The save path that `download_urls` derives for a `(key, doc)` tuple: the
key's first two `'|'`-parts joined with the document name under the download
root.  (Only meaningful for keys with exactly three parts, which is the shape
`download_urls` itself insists on.) -/
def savePathFor (folder : List Char) (kd : List Char × DocumentMetadata) : List Char :=
  match splitOnChar '|' kd.1 with
  | [cik, acc_no, _doc_seq] => mkSavePath folder cik acc_no kd.2.Document
  | _ => []

/-- Concrete sample document for witness and counterexample runs. -/
def doc1 : DocumentMetadata :=
  ⟨pys ("1"), pys ("desc"), pys ("d1.htm"), pys ("10-K"), pys ("10"),
    pys ("/a/d1.htm"), pys ("htm"), none, pys ("2016-09-24")⟩

/-- Second sample document. -/
def doc2 : DocumentMetadata :=
  { doc1 with Seq := pys ("2"), Document := pys ("d2.htm"), URL := pys ("/a/d2.htm") }

/-- Third sample document. -/
def doc3 : DocumentMetadata :=
  { doc1 with Seq := pys ("3"), Document := pys ("d3.htm"), URL := pys ("/a/d3.htm") }

/-- Fourth sample document. -/
def doc4 : DocumentMetadata :=
  { doc1 with Seq := pys ("4"), Document := pys ("d4.htm"), URL := pys ("/a/d4.htm") }

/-- Fifth sample document. -/
def doc5 : DocumentMetadata :=
  { doc1 with Seq := pys ("5"), Document := pys ("d5.htm"), URL := pys ("/a/d5.htm") }

/-- A sample document whose `FS_Location` is already set. -/
def doc6 : DocumentMetadata :=
  { doc1 with
      Seq := pys ("6"), Document := pys ("d6.htm"), URL := pys ("/a/d6.htm"),
      FS_Location := some (pys ("old/d6.htm")) }

/-- Sample filing holding the five sample documents. -/
def filA : Filing := ⟨pys ("1"), pys ("acc"), [doc1, doc2, doc3, doc4, doc5]⟩

/-- Sample fetch oracle that fails exactly on `doc2`'s URL. -/
def dlFetchW : List Char → Option (List Char) :=
  fun u => if u = dl_base_url ++ doc2.URL then none else some []

/-- Sample fetch oracle that always succeeds with empty content. -/
def dlFetchAll : List Char → Option (List Char) := fun _ => some []

/-- The SEC bulk registry document `company_tickers_exchange.json`
(`{"fields": [...], "data": [...]}`); every cell is embedded as a string.
The registry is external data fetched over the network, so its concrete
content is a parameter of the embedding. -/
structure Registry where
  fields : List (List Char)
  data : List (List (List Char))
deriving DecidableEq

/-- The firm information provisioned on a `Firm` object
(`self._cik`, `self._name`, `self._ticker`, `self._exchange`). -/
structure FirmInfo where
  cik : List Char
  name : List Char
  ticker : List Char
  exchange : List Char
deriving DecidableEq

/-- The class-level mutable state of `Firm` (`UrlComponent.py` lines
439-440): the set of ciks for which a `Firm` object was already created,
and the cached bulk registry. -/
structure FirmState where
  seen_ciks : List (List Char)
  sec_registry : Option Registry
deriving DecidableEq

/-- The failure modes of `Firm.__init__`: `TypeError` (no identifying
parameter), `IndexError` on a missing registry entry (the spec's
`NotFound`), `IndexError`/`KeyError` from a malformed registry row, and
`LookupError` from the firm-already-created check. -/
inductive FirmError where
  | typeError
  | notFound
  | badRow
  | lookupError
deriving DecidableEq

instance {ε α : Type} [DecidableEq ε] [DecidableEq α] : DecidableEq (Except ε α) := fun a b =>
  match a, b with
  | Except.error x, Except.error y =>
    if h : x = y then isTrue (by rw [h]) else isFalse fun he => h (Except.error.inj he)
  | Except.ok x, Except.ok y =>
    if h : x = y then isTrue (by rw [h]) else isFalse fun he => h (Except.ok.inj he)
  | Except.error _, Except.ok _ => isFalse fun he => Except.noConfusion he
  | Except.ok _, Except.error _ => isFalse fun he => Except.noConfusion he

/-- Python `[idx for idx, key in enumerate(fields) if key == param][0]`,
`IndexError` (`none`) when the field is absent. -/
def fieldIndex : List (List Char) → List Char → Option Nat
  | [], _ => none
  | fld :: rest, param =>
    if fld = param then some 0 else (fieldIndex rest param).map (· + 1)

/-- Python `[item for item in data if item[index] == value]`; a row shorter
than `index + 1` raises `IndexError` (`none`). -/
def rowsMatching : List (List (List Char)) → Nat → List Char → Option (List (List (List Char)))
  | [], _, _ => some []
  | row :: rest, i, v =>
    match row.get? i with
    | none => none
    | some cell =>
      (rowsMatching rest i v).map (fun tl => if cell = v then row :: tl else tl)

/-- Python `[item[1] for item in registry_data]`; `IndexError` (`none`)
when a row has fewer than two cells. -/
def namesColumn : List (List (List Char)) → Option (List (List Char))
  | [] => some []
  | row :: rest =>
    match row.get? 1 with
    | none => none
    | some nm => (namesColumn rest).map (nm :: ·)

/-- `dict(zip(['cik','name','ticker','exchange'], info_items))` together
with the four attribute reads in `Firm.__init__`: all four positions must
exist in the row (`KeyError` otherwise). -/
def mkFirmInfo (row : List (List Char)) : Option FirmInfo :=
  match row.get? 0, row.get? 1, row.get? 2, row.get? 3 with
  | some c, some n, some t, some e => some ⟨c, n, t, e⟩
  | _, _, _, _ => none

/-- Python `str.upper()`. -/
def upperStr (s : List Char) : List Char := s.map Char.toUpper

/-- The parameter-selection loop of `Firm.__init__` (`UrlComponent.py`
lines 449-456): iterate `['name', 'ticker', 'cik']`, keep the provided
ones upper-cased, take the first; `TypeError` (`none`) when none is given. -/
def Firm_selection (cik ticker name : Option (List Char)) :
    Option (List Char × List Char) :=
  match name with
  | some v => some (pys ("name"), upperStr v)
  | none =>
    match ticker with
    | some v => some (pys ("ticker"), upperStr v)
    | none =>
      match cik with
      | some v => some (pys ("cik"), upperStr v)
      | none => none

/-- `firm_info[0]` on the matching-rows list: the first matching registry
row, `IndexError` (`notFound`) when there is none. -/
def headOrNotFound (rows : List (List (List Char))) : Except FirmError (List (List Char)) :=
  match rows.head? with
  | none => Except.error FirmError.notFound
  | some row => Except.ok row

/-- Filter the registry rows on column `i` and take the first match
(the body of `Firm.get_item_from_sec_registry`, without the field-index
computation). -/
def matchedRow (data : List (List (List Char))) (i : Nat) (value : List Char) :
    Except FirmError (List (List Char)) :=
  match rowsMatching data i value with
  | none => Except.error FirmError.badRow
  | some rows => headOrNotFound rows

/-- `Firm.get_item_from_sec_registry` (`UrlComponent.py` lines 496-501):
field-index lookup (`IndexError` when the field is absent), then first
matching row. -/
def exactLookup (reg : Registry) (param value : List Char) :
    Except FirmError (List (List Char)) :=
  match fieldIndex reg.fields param with
  | none => Except.error FirmError.notFound
  | some i => matchedRow reg.data i value

/-- The tail of the fuzzy `name` branch: best-candidate choice then
`[item for item in registry_data if item[1] == possible_names[0][0]][0]`. -/
def fuzzyChoose (chooser : List Char → List (List Char) → Option (List Char))
    (reg : Registry) (value : List Char) (names : List (List Char)) :
    Except FirmError (List (List Char)) :=
  match chooser value names with
  | none => Except.error FirmError.notFound
  | some best => matchedRow reg.data 1 best

/-- The fuzzy `name` branch of `get_firm_info_from_sec_registry`
(`UrlComponent.py` lines 538-544): build the name column, choose the
best-scoring candidate (`chooser` stands for
`process.extract(...)[0][0]`, `none` embedding the `IndexError` on an
empty candidate list), and take the first row carrying that name. -/
def fuzzyLookup (chooser : List Char → List (List Char) → Option (List Char))
    (reg : Registry) (value : List Char) : Except FirmError (List (List Char)) :=
  match namesColumn reg.data with
  | none => Except.error FirmError.badRow
  | some names => fuzzyChoose chooser reg value names

/-- The lookup part of `Firm.get_firm_info_from_sec_registry`
(`UrlComponent.py` lines 536-547) against an already-available registry:
exact match for `cik`/`ticker`, fuzzy match for `name`. -/
def firmRegistryLookup (chooser : List Char → List (List Char) → Option (List Char))
    (reg : Registry) (param value : List Char) :
    Except FirmError (List (List Char)) :=
  if param = pys ("cik") ∨ param = pys ("ticker") then exactLookup reg param value
  else if param = pys ("name") then fuzzyLookup chooser reg value
  else Except.error FirmError.typeError

/-- The provisioning tail of `Firm.__init__`: build the firm-info
attributes from the resolved row (`KeyError`/`badRow` when the row is too
short), then check the class-level already-created set — `LookupError`
when this cik was seen before, record it otherwise. -/
def Firm_record (st : FirmState) (freshReg : Registry) (info? : Option FirmInfo) :
    FirmState × Except FirmError FirmInfo :=
  match info? with
  | none =>
    ({ st with sec_registry := some (st.sec_registry.getD freshReg) },
      Except.error FirmError.badRow)
  | some info =>
    if info.cik ∈ st.seen_ciks then
      ({ st with sec_registry := some (st.sec_registry.getD freshReg) },
        Except.error FirmError.lookupError)
    else
      ({ seen_ciks := info.cik :: st.seen_ciks,
         sec_registry := some (st.sec_registry.getD freshReg) }, Except.ok info)

def Firm_provision (st : FirmState) (freshReg : Registry)
    (res : Except FirmError (List (List Char))) :
    FirmState × Except FirmError FirmInfo :=
  match res with
  | Except.error e =>
    ({ st with sec_registry := some (st.sec_registry.getD freshReg) }, Except.error e)
  | Except.ok row => Firm_record st freshReg (mkFirmInfo row)

/-- `Firm.__init__` (`UrlComponent.py` lines 442-476) together with the
lazy registry fetch of `get_firm_info_from_sec_registry` (lines 530-534)
and `check_firm_for_previous_initialize_update_if_not` (lines 509-517):
select the identifying parameter; the registry is fetched only when the
class-level cache is empty (`freshReg` is what a fetch would return) and
is cached in the resulting state; resolve and provision. -/
def Firm_init (chooser : List Char → List (List Char) → Option (List Char))
    (st : FirmState) (freshReg : Registry)
    (cik ticker name : Option (List Char)) :
    FirmState × Except FirmError FirmInfo :=
  match Firm_selection cik ticker name with
  | none => (st, Except.error FirmError.typeError)
  | some pv =>
    Firm_provision st freshReg
      (firmRegistryLookup chooser (st.sec_registry.getD freshReg) pv.1 pv.2)

/-- The Boolean row predicate `item[index] == value` used on the registry. -/
def rowHasCell (i : Nat) (v : List Char) (row : List (List Char)) : Bool :=
  decide (row.get? i = some v)

/-- Embedding of the Python values held by the URL attributes of `Filing`:
a plain string, `None`, or a one-element tuple — the value produced by an
assignment statement ending in a trailing comma. -/
inductive PyVal where
  | str : List Char → PyVal
  | pynone : PyVal
  | tuple1 : PyVal → PyVal
deriving DecidableEq

/-- A `None`-able string as a Python value. -/
def optToPy : Option (List Char) → PyVal
  | some s => PyVal.str s
  | none => PyVal.pynone

/-- The URL attributes of a `Filing` after `_get_filing_documents` ran. -/
structure FilingUrlAttrs where
  filing_details_filename : PyVal
  full_submission_url : PyVal
  filing_details_url : PyVal
  filing_detail_page_url : PyVal
  xlsx_financial_report_url : PyVal
  html_exhibits_url : PyVal
  xbrl_instance_doc_url : PyVal
  zip_compressed_file_url : PyVal
deriving DecidableEq

/-- The attribute-assignment block at the end of
`Filing._get_filing_documents` (`UrlComponent.py` lines 377-386).  Each of
the first seven assignment statements ends with a trailing comma, so Python
assigns a one-element tuple; the final `zip_compressed_file_url` assignment
does not and stores the plain string.  The URL values come from parsed HTML
(`None`-able for the discovered ones) or are constructed strings
(`filled_url`, `url_zip`), and are parameters of the embedding. -/
def populate_filing_urls
    (url_text url_ixbrl url_xlsx url_exhibit url_xbrl : Option (List Char))
    (filled_url url_zip : List Char) : FilingUrlAttrs where
  filing_details_filename := PyVal.tuple1 PyVal.pynone
  full_submission_url := PyVal.tuple1 (optToPy url_text)
  filing_details_url := PyVal.tuple1 (optToPy url_ixbrl)
  filing_detail_page_url := PyVal.tuple1 (PyVal.str filled_url)
  xlsx_financial_report_url := PyVal.tuple1 (optToPy url_xlsx)
  html_exhibits_url := PyVal.tuple1 (optToPy url_exhibit)
  xbrl_instance_doc_url := PyVal.tuple1 (optToPy url_xbrl)
  zip_compressed_file_url := PyVal.str url_zip

/-- Sample registry with one firm row for witness runs. -/
def regA : Registry :=
  ⟨[pys ("cik"), pys ("name"), pys ("ticker"), pys ("exchange")],
    [[pys ("320193"), pys ("APPLE INC"), pys ("AAPL"), pys ("Nasdaq")]]⟩

/-- `doc1` as downloaded to the sample folder. -/
def doc1dl : DocumentMetadata :=
  { doc1 with
      FS_Location := some (mkSavePath (pys ("dl")) (pys ("1")) (pys ("acc")) (pys ("d1.htm"))) }

/-- `doc3` as downloaded to the sample folder. -/
def doc3dl : DocumentMetadata :=
  { doc3 with
      FS_Location := some (mkSavePath (pys ("dl")) (pys ("1")) (pys ("acc")) (pys ("d3.htm"))) }

/-- Fresh `Firm` class state: nothing created, no cached registry. -/
def stEmpty : FirmState := ⟨[], none⟩

/-- A trivial fuzzy chooser (never returns a candidate); only the exact
ticker path is exercised by the sample runs that use it. -/
def chooserNone : List Char → List (List Char) → Option (List Char) := fun _ _ => none

end SecEdgar

namespace SecEdgar

theorem splitOnChar_ne_nil (sep : Char) (s : List Char) : splitOnChar sep s ≠ [] := by
  induction s with
  | nil => simp [splitOnChar]
  | cons c cs ih =>
    by_cases h : c = sep
    · simp [splitOnChar, h]
    · simp only [splitOnChar, if_neg h]
      cases hs : splitOnChar sep cs with
      | nil => simp
      | cons a t => simp

theorem splitOnChar_not_mem {sep : Char} {s : List Char} (h : sep ∉ s) :
    splitOnChar sep s = [s] := by
  induction s with
  | nil => rfl
  | cons c cs ih =>
    have hc : c ≠ sep := fun hcs => h (hcs ▸ List.mem_cons_self c cs)
    have hcs : sep ∉ cs := fun hm => h (List.mem_cons_of_mem c hm)
    simp only [splitOnChar, if_neg hc, ih hcs]

theorem splitOnChar_append {sep : Char} {a : List Char} (b : List Char) (h : sep ∉ a) :
    splitOnChar sep (a ++ (sep :: b)) = a :: splitOnChar sep b := by
  induction a with
  | nil => simp [splitOnChar]
  | cons c cs ih =>
    have hc : c ≠ sep := fun hcs => h (hcs ▸ List.mem_cons_self c cs)
    have hcs : sep ∉ cs := fun hm => h (List.mem_cons_of_mem c hm)
    simp only [List.cons_append, splitOnChar, if_neg hc, List.append_eq, ih hcs]

theorem lstrip0_replicate_append (n : Nat) (s : List Char) :
    lstrip0 (List.replicate n '0' ++ s) = lstrip0 s := by
  induction n with
  | zero => simp
  | succ k ih => simpa [List.replicate_succ, lstrip0] using ih

theorem lstrip0_idem (s : List Char) : lstrip0 (lstrip0 s) = lstrip0 s := by
  induction s with
  | nil => rfl
  | cons c cs ih =>
    by_cases h : c = '0'
    · simpa [lstrip0, h] using ih
    · simp [lstrip0, h]

theorem mem_of_mem_lstrip0 {x : Char} {s : List Char} (h : x ∈ lstrip0 s) : x ∈ s := by
  induction s with
  | nil => simp [lstrip0] at h
  | cons c cs ih =>
    by_cases hc : c = '0'
    · simp only [lstrip0, if_pos hc] at h
      exact List.mem_cons_of_mem c (ih h)
    · rw [lstrip0, if_neg hc] at h
      exact h

theorem canonicalize_eq {c y q : List Char}
    (hc : '-' ∉ c) (hy : '-' ∉ y) (hq : '-' ∉ q)
    (h1 : 1 < (lstrip0 c).length) (h2 : (lstrip0 c).length < 10)
    (hyl : y.length = 2) (hql : q.length = 6) :
    canonicalize (c ++ ('-' :: (y ++ ('-' :: q))))
      = some (zeroPad10 (lstrip0 c) ++ ('-' :: (y ++ ('-' :: q)))) := by
  obtain ⟨a, b, rfl⟩ := List.length_eq_two.mp hyl
  have hsplit : splitOnChar '-' (c ++ ('-' :: ([a, b] ++ ('-' :: q)))) = [c, [a, b], q] := by
    rw [splitOnChar_append _ hc, splitOnChar_append _ hy, splitOnChar_not_mem hq]
  have hverify : verify_components_meet_requirements ⟨lstrip0 c, '2' :: ('0' :: [a, b]), q⟩
      = true := by
    simp [verify_components_meet_requirements, h1, h2, hql]
  unfold canonicalize parse_accession_number
  rw [hsplit]
  show create_from_components ⟨lstrip0 c, '2' :: ('0' :: [a, b]), q⟩ = _
  unfold create_from_components
  rw [hverify]
  simp

/-- C1: for every valid accession string (three dash-separated components whose
zero-stripped firm part has length 2-9, two-digit year, six-character sequence),
parsing and re-formatting through `create_from_components` yields the
ten-digit-zero-padded canonical string; raw strings differing only in the firm
component's zero padding canonicalize identically; and the canonical output
round-trips to itself. -/
theorem accession_parse_format_canonical
    (c y q : List Char) (n : Nat)
    (hc : '-' ∉ c) (hy : '-' ∉ y) (hq : '-' ∉ q)
    (h1 : 1 < (lstrip0 c).length) (h2 : (lstrip0 c).length < 10)
    (hyl : y.length = 2) (hql : q.length = 6) :
    canonicalize (c ++ ('-' :: (y ++ ('-' :: q))))
        = some (zeroPad10 (lstrip0 c) ++ ('-' :: (y ++ ('-' :: q))))
    ∧ canonicalize (List.replicate n '0' ++ (c ++ ('-' :: (y ++ ('-' :: q)))))
        = canonicalize (c ++ ('-' :: (y ++ ('-' :: q))))
    ∧ canonicalize (zeroPad10 (lstrip0 c) ++ ('-' :: (y ++ ('-' :: q))))
        = some (zeroPad10 (lstrip0 c) ++ ('-' :: (y ++ ('-' :: q)))) := by
  have base := canonicalize_eq hc hy hq h1 h2 hyl hql
  refine ⟨base, ?_, ?_⟩
  · have hc' : '-' ∉ List.replicate n '0' ++ c := by
      intro hm
      rcases List.mem_append.mp hm with hm | hm
      · exact absurd (List.eq_of_mem_replicate hm) (by decide)
      · exact hc hm
    have hl : lstrip0 (List.replicate n '0' ++ c) = lstrip0 c := lstrip0_replicate_append n c
    have h1' : 1 < (lstrip0 (List.replicate n '0' ++ c)).length := by rw [hl]; exact h1
    have h2' : (lstrip0 (List.replicate n '0' ++ c)).length < 10 := by rw [hl]; exact h2
    have base' := canonicalize_eq hc' hy hq h1' h2' hyl hql
    rw [← List.append_assoc, base', hl, base]
  · have hc'' : '-' ∉ zeroPad10 (lstrip0 c) := by
      intro hm
      rcases List.mem_append.mp hm with hm | hm
      · exact absurd (List.eq_of_mem_replicate hm) (by decide)
      · exact hc (mem_of_mem_lstrip0 hm)
    have hl'' : lstrip0 (zeroPad10 (lstrip0 c)) = lstrip0 c := by
      unfold zeroPad10
      rw [lstrip0_replicate_append, lstrip0_idem]
    have h1'' : 1 < (lstrip0 (zeroPad10 (lstrip0 c))).length := by rw [hl'']; exact h1
    have h2'' : (lstrip0 (zeroPad10 (lstrip0 c))).length < 10 := by rw [hl'']; exact h2
    have base'' := canonicalize_eq hc'' hy hq h1'' h2'' hyl hql
    rw [hl''] at base''
    exact base''

/-- C1 witness: the hypotheses hold for `1193125-15-118890` and the theorem
canonicalizes it (and its zero-padded variant) to `0001193125-15-118890`. -/
theorem accession_parse_format_canonical_witness :
    (('-' ∉ pys ("1193125")) ∧ 1 < (lstrip0 (pys ("1193125"))).length
      ∧ (lstrip0 (pys ("1193125"))).length < 10
      ∧ (pys ("15")).length = 2 ∧ (pys ("118890")).length = 6)
    ∧ (canonicalize (pys ("1193125") ++ ('-' :: (pys ("15") ++ ('-' :: pys ("118890")))))
        = some (zeroPad10 (lstrip0 (pys ("1193125"))) ++ ('-' :: (pys ("15") ++ ('-' :: pys ("118890")))))
      ∧ canonicalize (List.replicate 3 '0' ++ (pys ("1193125") ++ ('-' :: (pys ("15") ++ ('-' :: pys ("118890"))))))
          = canonicalize (pys ("1193125") ++ ('-' :: (pys ("15") ++ ('-' :: pys ("118890")))))
      ∧ canonicalize (zeroPad10 (lstrip0 (pys ("1193125"))) ++ ('-' :: (pys ("15") ++ ('-' :: pys ("118890")))))
          = some (zeroPad10 (lstrip0 (pys ("1193125"))) ++ ('-' :: (pys ("15") ++ ('-' :: pys ("118890")))))) :=
  ⟨⟨by decide, by decide, by decide, by decide, by decide⟩,
    accession_parse_format_canonical (pys ("1193125")) (pys ("15")) (pys ("118890")) 3
      (by decide) (by decide) (by decide) (by decide) (by decide) (by decide) (by decide)⟩

/-- C7 (amended): construction (`AccessionNumber.__init__`) succeeds exactly when
parsing succeeds and verification passes, formatting
(`create_from_components`) fails exactly when verification fails, and
verification accepts exactly: firm component length 2 through 9 (not 1
through 9), year exactly four characters starting with `"20"`, and sequence
exactly six characters (their being digits is not checked). -/
theorem verify_components_shape (s : List Char) (p : AccParts) :
    (accessionNumber_init s = some p
        ↔ (parse_accession_number s = some p ∧ verify_components_meet_requirements p = true))
    ∧ (create_from_components p = none ↔ verify_components_meet_requirements p = false)
    ∧ (verify_components_meet_requirements p = true
        ↔ (2 ≤ p.short_cik.length ∧ p.short_cik.length ≤ 9
            ∧ p.year.length = 4 ∧ p.year.take 2 = ['2', '0']
            ∧ p.annual_sequence.length = 6)) := by
  refine ⟨?_, ?_, ?_⟩
  · unfold accessionNumber_init
    cases hp : parse_accession_number s with
    | none => simp
    | some p' =>
      simp only [Option.some_bind]
      by_cases hv : verify_components_meet_requirements p' = true
      · rw [if_pos hv]
        constructor
        · intro h
          cases h
          exact ⟨rfl, hv⟩
        · rintro ⟨h, _⟩
          exact h
      · rw [if_neg hv]
        constructor
        · intro h
          cases h
        · rintro ⟨h, hvp⟩
          cases h
          exact absurd hvp hv
  · by_cases hv : verify_components_meet_requirements p = false
    · simp [create_from_components, hv]
    · simp [create_from_components, hv]
  · simp only [verify_components_meet_requirements, Bool.and_eq_true, decide_eq_true_eq]
    constructor
    · rintro ⟨⟨⟨h1, h2⟩, h3, h4⟩, h5⟩
      exact ⟨by omega, by omega, h3, h4, h5⟩
    · rintro ⟨h1, h2, h3, h4, h5⟩
      exact ⟨⟨⟨by omega, by omega⟩, h3, h4⟩, h5⟩

/-- C7 witness: the amended shape characterization evaluated at the
canonical sample accession number. -/
theorem verify_components_shape_witness :
    accessionNumber_init (pys ("0001193125-15-118890"))
        = some ⟨pys ("1193125"), pys ("2015"), pys ("118890")⟩
    ∧ verify_components_meet_requirements
        ⟨pys ("1193125"), pys ("2015"), pys ("118890")⟩ = true := by
  have h := (verify_components_shape (pys ("0001193125-15-118890"))
    ⟨pys ("1193125"), pys ("2015"), pys ("118890")⟩).1
  exact ⟨h.mpr ⟨by decide, by decide⟩, by decide⟩

/-- C7 counterexample: the claim's shape rules are wrong on both ends.
`0000000001-15-118890` has a firm component of (stripped) length 1 with
well-shaped year and sequence, yet construction is rejected; and a
six-letter non-digit sequence passes verification. -/
theorem verify_components_shape_counterexample :
    accessionNumber_init (pys ("0000000001-15-118890")) = none
    ∧ (lstrip0 (pys ("0000000001"))).length = 1
    ∧ verify_components_meet_requirements ⟨pys ("1193125"), pys ("2015"), pys ("abcdef")⟩ = true := by
  decide

/-- C8: `parse_accession_number` splits on dashes, strips leading zeros from the
firm component and prefixes `"20"` to the year whenever at least three
dash-separated parts exist; with fewer than three parts it fails; and on
`0001193125-15-118890` it yields firm `1193125`, year `2015`, sequence
`118890`. -/
theorem parse_accession_number_spec (s : List Char) :
    (∀ p0 p1 p2 rest, splitOnChar '-' s = p0 :: (p1 :: (p2 :: rest)) →
        parse_accession_number s = some ⟨lstrip0 p0, '2' :: ('0' :: p1), p2⟩)
    ∧ ((splitOnChar '-' s).length < 3 → parse_accession_number s = none)
    ∧ parse_accession_number (pys ("0001193125-15-118890"))
        = some ⟨pys ("1193125"), pys ("2015"), pys ("118890")⟩ := by
  refine ⟨?_, ?_, by decide⟩
  · intro p0 p1 p2 rest hsp
    unfold parse_accession_number
    rw [hsp]
  · intro h
    rcases hs : splitOnChar '-' s with _ | ⟨a, _ | ⟨b, _ | ⟨c, t3⟩⟩⟩
    · unfold parse_accession_number; rw [hs]
    · unfold parse_accession_number; rw [hs]
    · unfold parse_accession_number; rw [hs]
    · rw [hs] at h
      simp only [List.length_cons] at h
      omega

/-- C8 witness: the positive branch at a concrete split and the failure branch
on a two-part input. -/
theorem parse_accession_number_spec_witness :
    parse_accession_number (pys ("0001193125-15-118890"))
        = some ⟨pys ("1193125"), pys ("2015"), pys ("118890")⟩
    ∧ parse_accession_number (pys ("15-118890")) = none :=
  ⟨(parse_accession_number_spec (pys ("0001193125-15-118890"))).2.2,
    (parse_accession_number_spec (pys ("15-118890"))).2.1 (by decide)⟩

theorem mem_map_fst_cons_self {α : Type} {kv : List Char × α} {k : List Char}
    (rest : List (List Char × α)) (he : kv.1 = k) : k ∈ (kv :: rest).map Prod.fst :=
  List.mem_map.mpr ⟨kv, List.mem_cons_self kv rest, he⟩

theorem mem_map_fst_cons_of_mem {α : Type} (kv : List Char × α)
    {rest : List (List Char × α)} {k : List Char} (hm : k ∈ rest.map Prod.fst) :
    k ∈ (kv :: rest).map Prod.fst := by
  rw [List.map_cons]
  exact List.mem_cons_of_mem _ hm

theorem odLookup_eq_none_of_not_mem {α : Type} {m : List (List Char × α)} {k : List Char}
    (h : k ∉ m.map Prod.fst) : odLookup m k = none := by
  induction m with
  | nil => rfl
  | cons kv rest ih =>
    have hk : kv.1 ≠ k := fun he => h (mem_map_fst_cons_self rest he)
    rw [odLookup, if_neg hk]
    exact ih fun hm => h (mem_map_fst_cons_of_mem kv hm)

theorem odLookup_append_none {α : Type} {l1 : List (List Char × α)}
    (l2 : List (List Char × α)) (k : List Char) (h : odLookup l1 k = none) :
    odLookup (l1 ++ l2) k = odLookup l2 k := by
  induction l1 with
  | nil => rfl
  | cons kv rest ih =>
    by_cases hk : kv.1 = k
    · rw [odLookup, if_pos hk] at h
      simp at h
    · rw [odLookup, if_neg hk] at h
      rw [List.cons_append, odLookup, if_neg hk]
      exact ih h

theorem odLookup_odPop_self {α : Type} (m : List (List Char × α)) (k : List Char) :
    odLookup (odPop m k) k = none := by
  induction m with
  | nil => rfl
  | cons kv rest ih =>
    by_cases hk : kv.1 = k
    · rw [odPop, if_pos hk]
      exact ih
    · rw [odPop, if_neg hk, odLookup, if_neg hk]
      exact ih

theorem odLookup_popAppend_self {α : Type} (m : List (List Char × α))
    (fk : List Char) (e : α) : odLookup (odPop m fk ++ [(fk, e)]) fk = some e := by
  rw [odLookup_append_none _ _ (odLookup_odPop_self m fk)]
  simp [odLookup]

theorem odLookup_popAppend_ne {α : Type} (m : List (List Char × α))
    (fk k : List Char) (e : α) (h : k ≠ fk) :
    odLookup (odPop m fk ++ [(fk, e)]) k = odLookup m k := by
  induction m with
  | nil =>
    show odLookup ([(fk, e)]) k = none
    rw [odLookup, if_neg fun he => h he.symm]
    rfl
  | cons kv rest ih =>
    by_cases hk : kv.1 = fk
    · rw [odPop, if_pos hk, odLookup, if_neg fun he : kv.1 = k => h (he ▸ hk)]
      exact ih
    · rw [odPop, if_neg hk, List.cons_append, odLookup, odLookup]
      by_cases hk' : kv.1 = k
      · rw [if_pos hk', if_pos hk']
      · rw [if_neg hk', if_neg hk']
        exact ih

theorem odLookup_odReplace_self {α : Type} {m : List (List Char × α)} {k : List Char}
    (v : α) (h : k ∈ m.map Prod.fst) : odLookup (odReplace m k v) k = some v := by
  induction m with
  | nil => simp at h
  | cons kv rest ih =>
    by_cases hk : kv.1 = k
    · rw [odReplace, if_pos hk, odLookup, if_pos rfl]
    · rw [odReplace, if_neg hk, odLookup, if_neg hk]
      rcases List.mem_map.mp h with ⟨x, hx, hfst⟩
      rcases List.mem_cons.mp hx with hx1 | hx2
      · exact absurd (hx1 ▸ hfst) hk
      · exact ih (List.mem_map.mpr ⟨x, hx2, hfst⟩)

theorem odLookup_odReplace_ne {α : Type} (m : List (List Char × α)) (k k' : List Char)
    (v : α) (h : k' ≠ k) : odLookup (odReplace m k v) k' = odLookup m k' := by
  induction m with
  | nil => rfl
  | cons kv rest ih =>
    by_cases hk : kv.1 = k
    · rw [odReplace, if_pos hk, odLookup, if_neg (fun he => h he.symm), odLookup,
        if_neg (fun he => h (hk ▸ he).symm)]
      exact ih
    · rw [odReplace, if_neg hk, odLookup, odLookup]
      by_cases hk' : kv.1 = k'
      · rw [if_pos hk', if_pos hk']
      · rw [if_neg hk', if_neg hk']
        exact ih

theorem map_fst_odReplace {α : Type} (m : List (List Char × α)) (k : List Char) (v : α) :
    (odReplace m k v).map Prod.fst = m.map Prod.fst := by
  induction m with
  | nil => rfl
  | cons kv rest ih =>
    by_cases hk : kv.1 = k
    · rw [odReplace, if_pos hk]
      simp [ih, hk]
    · rw [odReplace, if_neg hk]
      simp [ih]

theorem odReplace_odReplace {α : Type} (m : List (List Char × α)) (k : List Char) (v : α) :
    odReplace (odReplace m k v) k v = odReplace m k v := by
  induction m with
  | nil => rfl
  | cons kv rest ih =>
    by_cases hk : kv.1 = k
    · rw [odReplace, if_pos hk, odReplace, if_pos rfl, ih]
    · rw [odReplace, if_neg hk, odReplace, if_neg hk, ih]

theorem odReplace_append {α : Type} (l1 l2 : List (List Char × α)) (k : List Char) (v : α) :
    odReplace (l1 ++ l2) k v = odReplace l1 k v ++ odReplace l2 k v := by
  induction l1 with
  | nil => rfl
  | cons kv rest ih =>
    by_cases hk : kv.1 = k
    · rw [List.cons_append, odReplace, if_pos hk, odReplace, if_pos hk, ih, List.cons_append]
    · rw [List.cons_append, odReplace, if_neg hk, odReplace, if_neg hk, ih, List.cons_append]

theorem odReplace_of_not_mem {α : Type} {m : List (List Char × α)} {k : List Char}
    (v : α) (h : k ∉ m.map Prod.fst) : odReplace m k v = m := by
  induction m with
  | nil => rfl
  | cons kv rest ih =>
    have hk : kv.1 ≠ k := fun he => h (mem_map_fst_cons_self rest he)
    rw [odReplace, if_neg hk, ih fun hm => h (mem_map_fst_cons_of_mem kv hm)]

theorem countKey_odReplace {α : Type} (m : List (List Char × α)) (k : List Char) (v : α) :
    countKey (odReplace m k v) k = countKey m k := by
  induction m with
  | nil => rfl
  | cons kv rest ih =>
    by_cases hk : kv.1 = k
    · rw [odReplace, if_pos hk, countKey, if_pos rfl, countKey, if_pos hk, ih]
    · rw [odReplace, if_neg hk, countKey, if_neg hk, countKey, if_neg hk, ih]

theorem countKey_append {α : Type} (l1 l2 : List (List Char × α)) (k : List Char) :
    countKey (l1 ++ l2) k = countKey l1 k + countKey l2 k := by
  induction l1 with
  | nil => simp [countKey]
  | cons kv rest ih =>
    rw [List.cons_append, countKey, countKey, ih]
    omega

theorem countKey_pos_of_mem {α : Type} {m : List (List Char × α)} {k : List Char}
    (h : k ∈ m.map Prod.fst) : 0 < countKey m k := by
  induction m with
  | nil => simp at h
  | cons kv rest ih =>
    by_cases hk : kv.1 = k
    · rw [countKey, if_pos hk]
      omega
    · rcases List.mem_map.mp h with ⟨x, hx, hfst⟩
      rcases List.mem_cons.mp hx with hx1 | hx2
      · exact absurd (hx1 ▸ hfst) hk
      · have := ih (List.mem_map.mpr ⟨x, hx2, hfst⟩)
        rw [countKey]
        omega

theorem countKey_eq_zero_of_not_mem {α : Type} {m : List (List Char × α)} {k : List Char}
    (h : k ∉ m.map Prod.fst) : countKey m k = 0 := by
  induction m with
  | nil => rfl
  | cons kv rest ih =>
    have hk : kv.1 ≠ k := fun he => h (mem_map_fst_cons_self rest he)
    rw [countKey, if_neg hk, ih fun hm => h (mem_map_fst_cons_of_mem kv hm)]

theorem mem_map_fst_odSet {α : Type} (m : List (List Char × α)) (k : List Char) (v : α) :
    k ∈ (odSet m k v).map Prod.fst := by
  unfold odSet
  by_cases h : k ∈ m.map Prod.fst
  · rw [if_pos h, map_fst_odReplace]
    exact h
  · rw [if_neg h]
    exact List.mem_map.mpr
      ⟨(k, v), List.mem_append.mpr (Or.inr (List.mem_cons_self _ _)), rfl⟩

theorem odLookup_odSet_self {α : Type} (m : List (List Char × α)) (k : List Char) (v : α) :
    odLookup (odSet m k v) k = some v := by
  unfold odSet
  by_cases h : k ∈ m.map Prod.fst
  · rw [if_pos h]
    exact odLookup_odReplace_self v h
  · rw [if_neg h, odLookup_append_none _ _ (odLookup_eq_none_of_not_mem h),
      odLookup, if_pos rfl]

theorem odSet_odSet_same {α : Type} (m : List (List Char × α)) (k : List Char) (v : α) :
    odSet (odSet m k v) k v = odSet m k v := by
  by_cases h : k ∈ m.map Prod.fst
  · have hset : odSet m k v = odReplace m k v := by rw [odSet, if_pos h]
    rw [hset, odSet, if_pos (by rw [map_fst_odReplace]; exact h), odReplace_odReplace]
  · have hset : odSet m k v = m ++ [(k, v)] := by rw [odSet, if_neg h]
    have hmem : k ∈ (m ++ [(k, v)]).map Prod.fst :=
      List.mem_map.mpr ⟨(k, v), List.mem_append.mpr (Or.inr (List.mem_cons_self _ _)), rfl⟩
    rw [hset, odSet, if_pos hmem, odReplace_append, odReplace_of_not_mem v h,
      odReplace, if_pos rfl, odReplace]

theorem countKey_odSet_self {α : Type} (m : List (List Char × α)) (k : List Char) (v : α)
    (h : countKey m k ≤ 1) : countKey (odSet m k v) k = 1 := by
  unfold odSet
  by_cases hm : k ∈ m.map Prod.fst
  · rw [if_pos hm, countKey_odReplace]
    have := countKey_pos_of_mem hm
    omega
  · rw [if_neg hm, countKey_append, countKey_eq_zero_of_not_mem hm]
    simp [countKey]

theorem indexOfDoc_eq_none {l : List DocumentMetadata} {d : DocumentMetadata}
    (h : d ∉ l) : indexOfDoc l d = none := by
  induction l with
  | nil => rfl
  | cons a rest ih =>
    have ha : a ≠ d := fun he => h (he ▸ List.mem_cons_self a rest)
    rw [indexOfDoc, if_neg ha, ih fun hm => h (List.mem_cons_of_mem a hm)]
    rfl

theorem indexOfDoc_append {l1 : List DocumentMetadata} (l2 : List DocumentMetadata)
    {d : DocumentMetadata} (hnm : d ∉ l1) :
    indexOfDoc (l1 ++ (d :: l2)) d = some l1.length := by
  induction l1 with
  | nil =>
    rw [List.nil_append, indexOfDoc, if_pos rfl]
    rfl
  | cons a rest ih =>
    have ha : a ≠ d := fun he => hnm (he ▸ List.mem_cons_self a rest)
    rw [List.cons_append, indexOfDoc, if_neg ha, ih fun hm => hnm (List.mem_cons_of_mem a hm)]
    rfl

theorem set_append_length {α : Type} (l1 : List α) (d nd : α) (l2 : List α) :
    (l1 ++ (d :: l2)).set l1.length nd = l1 ++ (nd :: l2) := by
  induction l1 with
  | nil => rfl
  | cons a rest ih =>
    show a :: (rest ++ (d :: l2)).set rest.length nd = a :: (rest ++ (nd :: l2))
    rw [ih]

theorem indexOfDoc_decomp {l : List DocumentMetadata} {d : DocumentMetadata} (h : d ∈ l) :
    ∃ l1 l2, l = l1 ++ (d :: l2) ∧ d ∉ l1 := by
  induction l with
  | nil => simp at h
  | cons a rest ih =>
    by_cases ha : a = d
    · subst ha
      exact ⟨[], rest, rfl, by simp⟩
    · have hd : d ∈ rest := by
        rcases List.mem_cons.mp h with h1 | h2
        · exact absurd h1.symm ha
        · exact h2
      rcases ih hd with ⟨l1, l2, heq, hnm⟩
      refine ⟨a :: l1, l2, by rw [List.cons_append, heq], ?_⟩
      intro hm
      rcases List.mem_cons.mp hm with h1 | h2
      · exact ha h1.symm
      · exact hnm h2

theorem modify_document_spec (m : FilingSet) (file_key : List Char)
    (orig_doc new_doc : DocumentMetadata) (r : Filing) (l1 l2 : List DocumentMetadata)
    (hrec : odLookup m file_key = some r)
    (heq : r.document_metadata_list = l1 ++ (orig_doc :: l2))
    (hnm : orig_doc ∉ l1) :
    modify_document_in_record m file_key orig_doc new_doc
      = some (odPop m file_key
          ++ [(file_key, { r with document_metadata_list := l1 ++ (new_doc :: l2) })]) := by
  unfold modify_document_in_record
  rw [hrec, Option.some_bind, heq, indexOfDoc_append l2 hnm, Option.some_bind,
    set_append_length]

theorem modify_document_absent (m : FilingSet) (file_key : List Char)
    (orig_doc new_doc : DocumentMetadata) (r : Filing)
    (hrec : odLookup m file_key = some r)
    (h : orig_doc ∉ r.document_metadata_list) :
    modify_document_in_record m file_key orig_doc new_doc = none := by
  unfold modify_document_in_record
  rw [hrec, Option.some_bind, indexOfDoc_eq_none h]
  rfl

/-- C5: for a stored record under `file_key`, `modify_document_in_record`
replaces exactly the first document equal to `orig_doc` with `new_doc`,
leaving every other document of that record and every other record's lookup
unchanged (the touched record moves to the end of the ordered dict); when
`orig_doc` is absent from the record the call fails (`ValueError`, the
spec's `NotFound`) and, being failure, leaves the store unchanged. -/
theorem modify_document_replaces_first_match (m : FilingSet) (file_key : List Char)
    (orig_doc new_doc : DocumentMetadata) (r : Filing)
    (hrec : odLookup m file_key = some r) :
    (orig_doc ∈ r.document_metadata_list →
      ∃ l1 l2, r.document_metadata_list = l1 ++ (orig_doc :: l2)
        ∧ orig_doc ∉ l1
        ∧ modify_document_in_record m file_key orig_doc new_doc
            = some (odPop m file_key
                ++ [(file_key, { r with document_metadata_list := l1 ++ (new_doc :: l2) })])
        ∧ odLookup (odPop m file_key
              ++ [(file_key, { r with document_metadata_list := l1 ++ (new_doc :: l2) })])
            file_key
            = some { r with document_metadata_list := l1 ++ (new_doc :: l2) }
        ∧ ∀ k, k ≠ file_key →
            odLookup (odPop m file_key
                ++ [(file_key, { r with document_metadata_list := l1 ++ (new_doc :: l2) })]) k
              = odLookup m k)
    ∧ (orig_doc ∉ r.document_metadata_list →
        modify_document_in_record m file_key orig_doc new_doc = none) := by
  constructor
  · intro hm
    rcases indexOfDoc_decomp hm with ⟨l1, l2, heq, hnm⟩
    exact ⟨l1, l2, heq, hnm,
      modify_document_spec m file_key orig_doc new_doc r l1 l2 hrec heq hnm,
      odLookup_popAppend_self m file_key _,
      fun k hk => odLookup_popAppend_ne m file_key k _ hk⟩
  · intro hm
    exact modify_document_absent m file_key orig_doc new_doc r hrec hm

/-- C5 witness: the sample store with one record; replacing `doc2` succeeds
and replaces exactly that document, while a document not in the record
(`doc6`) makes the call fail. -/
theorem modify_document_replaces_first_match_witness :
    (odLookup [(pys ("1|acc"), filA)] (pys ("1|acc")) = some filA
      ∧ doc2 ∈ filA.document_metadata_list
      ∧ doc6 ∉ filA.document_metadata_list)
    ∧ (∃ l1 l2, filA.document_metadata_list = l1 ++ (doc2 :: l2)
        ∧ doc2 ∉ l1
        ∧ modify_document_in_record [(pys ("1|acc"), filA)] (pys ("1|acc")) doc2 doc6
            = some (odPop [(pys ("1|acc"), filA)] (pys ("1|acc"))
                ++ [(pys ("1|acc"), { filA with document_metadata_list := l1 ++ (doc6 :: l2) })])
        ∧ odLookup (odPop [(pys ("1|acc"), filA)] (pys ("1|acc"))
              ++ [(pys ("1|acc"), { filA with document_metadata_list := l1 ++ (doc6 :: l2) })])
            (pys ("1|acc"))
            = some { filA with document_metadata_list := l1 ++ (doc6 :: l2) }
        ∧ ∀ k, k ≠ pys ("1|acc") →
            odLookup (odPop [(pys ("1|acc"), filA)] (pys ("1|acc"))
                ++ [(pys ("1|acc"), { filA with document_metadata_list := l1 ++ (doc6 :: l2) })]) k
              = odLookup [(pys ("1|acc"), filA)] k)
    ∧ modify_document_in_record [(pys ("1|acc"), filA)] (pys ("1|acc")) doc6 doc1 = none :=
  ⟨⟨by decide, by decide, by decide⟩,
    (modify_document_replaces_first_match [(pys ("1|acc"), filA)] (pys ("1|acc"))
        doc2 doc6 filA (by decide)).1 (by decide),
    (modify_document_replaces_first_match [(pys ("1|acc"), filA)] (pys ("1|acc"))
        doc6 doc1 filA (by decide)).2 (by decide)⟩

/-- C3 (amended): `add_record` is idempotent for a fixed record — inserting
the same record twice leaves exactly one entry under its key, with the
stored record (hence its document-list length) unchanged — but inserting a
*different* record under an already-present key overwrites the stored
record with the new one (plain dict assignment), rather than being a
preserve-existing merge. -/
theorem add_record_idempotent_overwrite (m : FilingSet) (r r2 : Filing)
    (h : r.short_cik ≠ []) (h2 : r2.short_cik ≠ [])
    (hkey : r2.create_key = r.create_key)
    (hcount : countKey m r.create_key ≤ 1) :
    ∃ m1 m2, add_record m r = some m1
      ∧ add_record m1 r = some m1
      ∧ odLookup m1 r.create_key = some r
      ∧ countKey m1 r.create_key = 1
      ∧ add_record m1 r2 = some m2
      ∧ odLookup m2 r.create_key = some r2
      ∧ countKey m2 r.create_key = 1 := by
  refine ⟨odSet m r.create_key r, odSet (odSet m r.create_key r) r.create_key r2,
    ?_, ?_, ?_, ?_, ?_, ?_, ?_⟩
  · rw [add_record, if_pos h]
  · rw [add_record, if_pos h, odSet_odSet_same]
  · exact odLookup_odSet_self m r.create_key r
  · exact countKey_odSet_self m r.create_key r hcount
  · rw [add_record, if_pos h2, hkey]
  · exact odLookup_odSet_self _ r.create_key r2
  · refine countKey_odSet_self _ r.create_key r2 ?_
    rw [countKey_odSet_self m r.create_key r hcount]

/-- C3 counterexample: two records sharing the key `1|acc` but with different
document lists; inserting the second over the first *overwrites* the stored
record (the stored value becomes the second record, which differs from the
first), refuting the no-op-merge reading of the claim. -/
theorem add_record_overwrite_counterexample :
    add_record [] filA = some [(pys ("1|acc"), filA)]
    ∧ add_record [(pys ("1|acc"), filA)] ⟨pys ("1"), pys ("acc"), []⟩
        = some [(pys ("1|acc"), ⟨pys ("1"), pys ("acc"), []⟩)]
    ∧ odLookup [(pys ("1|acc"), (⟨pys ("1"), pys ("acc"), []⟩ : Filing))] (pys ("1|acc"))
        = some ⟨pys ("1"), pys ("acc"), []⟩
    ∧ (⟨pys ("1"), pys ("acc"), []⟩ : Filing) ≠ filA := by
  refine ⟨by decide, by decide, by decide, by decide⟩

/-- C3 witness: the amended theorem applied to the empty store with the two
sample records sharing key `1|acc`. -/
theorem add_record_idempotent_overwrite_witness :
    (filA.short_cik ≠ [] ∧ (⟨pys ("1"), pys ("acc"), []⟩ : Filing).short_cik ≠ []
      ∧ (⟨pys ("1"), pys ("acc"), []⟩ : Filing).create_key = filA.create_key
      ∧ countKey ([] : FilingSet) filA.create_key ≤ 1)
    ∧ (∃ m1 m2, add_record [] filA = some m1
        ∧ add_record m1 filA = some m1
        ∧ odLookup m1 filA.create_key = some filA
        ∧ countKey m1 filA.create_key = 1
        ∧ add_record m1 ⟨pys ("1"), pys ("acc"), []⟩ = some m2
        ∧ odLookup m2 filA.create_key = some ⟨pys ("1"), pys ("acc"), []⟩
        ∧ countKey m2 filA.create_key = 1) :=
  ⟨⟨by decide, by decide, by decide, by decide⟩,
    add_record_idempotent_overwrite [] filA ⟨pys ("1"), pys ("acc"), []⟩
      (by decide) (by decide) (by decide) (by decide)⟩

theorem syncDoc_eq_of_none {f : FsMap} {d : DocumentMetadata}
    (h : (firstWord d.Document).bind (odLookup f) = none) : syncDoc f d = d := by
  unfold syncDoc
  rw [h]

theorem syncDoc_eq_of_some {f : FsMap} {d : DocumentMetadata} {p : List Char}
    (h : (firstWord d.Document).bind (odLookup f) = some p) :
    syncDoc f d = { d with FS_Location := some p } := by
  unfold syncDoc
  rw [h]

theorem syncDoc_Document (f : FsMap) (d : DocumentMetadata) :
    (syncDoc f d).Document = d.Document := by
  cases hb : (firstWord d.Document).bind (odLookup f) with
  | none => rw [syncDoc_eq_of_none hb]
  | some p => rw [syncDoc_eq_of_some hb]

theorem syncDoc_FS (f : FsMap) (d : DocumentMetadata) :
    (syncDoc f d).FS_Location.isSome
      = (d.FS_Location.isSome || ((firstWord d.Document).bind (odLookup f)).isSome) := by
  cases hb : (firstWord d.Document).bind (odLookup f) with
  | none =>
    rw [syncDoc_eq_of_none hb]
    simp
  | some p =>
    rw [syncDoc_eq_of_some hb]
    simp

theorem countP_map_syncDoc (f : FsMap) (l : List DocumentMetadata) :
    (l.map (syncDoc f)).countP (fun d => d.FS_Location.isSome)
      = l.countP (fun d => d.FS_Location.isSome
          || ((firstWord d.Document).bind (odLookup f)).isSome) := by
  induction l with
  | nil => rfl
  | cons d rest ih => simp only [List.map_cons, List.countP_cons, ih, syncDoc_FS]

theorem syncStep_no_match {f : FsMap} {d : DocumentMetadata} {w : List Char}
    (fk : List Char) (m : FilingSet)
    (hw : firstWord d.Document = some w) (hlook : odLookup f w = none) :
    syncStep f fk m d = some m := by
  unfold syncStep
  rw [hw, Option.some_bind, hlook]

theorem syncStep_match {f : FsMap} {d : DocumentMetadata} {w p : List Char}
    (fk : List Char) (m : FilingSet)
    (hw : firstWord d.Document = some w) (hlook : odLookup f w = some p) :
    syncStep f fk m d = modify_document_in_record m fk d { d with FS_Location := some p } := by
  unfold syncStep
  rw [hw, Option.some_bind, hlook]

theorem nodup_names_not_mem_left {pre rest : List DocumentMetadata}
    {d : DocumentMetadata}
    (hnodup : ((pre ++ (d :: rest)).map (fun x => x.Document)).Nodup) : d ∉ pre := by
  intro hmem
  rw [List.map_append, List.map_cons, List.nodup_append] at hnodup
  exact hnodup.2.2 (List.mem_map.mpr ⟨d, hmem, rfl⟩) (List.mem_cons_self _ _)

theorem syncDocsLoop_spec (f : FsMap) (fk : List Char) :
    ∀ (docs pre : List DocumentMetadata) (m : FilingSet) (r : Filing),
      odLookup m fk = some r →
      r.document_metadata_list = pre ++ docs →
      ((pre ++ docs).map (fun x => x.Document)).Nodup →
      (∀ d ∈ docs, (firstWord d.Document).isSome) →
      ∃ m1, syncDocsLoop f fk m docs = some m1
        ∧ odLookup m1 fk = some { r with
            document_metadata_list := pre ++ docs.map (syncDoc f) }
        ∧ (∀ k, k ≠ fk → odLookup m1 k = odLookup m k) := by
  intro docs
  induction docs with
  | nil =>
    intro pre m r hrec heq hnodup hword
    refine ⟨m, rfl, ?_, fun k hk => rfl⟩
    rw [List.map_nil, List.append_nil]
    rw [List.append_nil] at heq
    rw [← heq]
    exact hrec
  | cons d rest ih =>
    intro pre m r hrec heq hnodup hword
    obtain ⟨w, hww⟩ := Option.isSome_iff_exists.mp (hword d (List.mem_cons_self _ _))
    have hword2 : ∀ x ∈ rest, (firstWord x.Document).isSome :=
      fun x hx => hword x (List.mem_cons_of_mem d hx)
    cases hlook : odLookup f w with
    | none =>
      have hsync : syncDoc f d = d :=
        syncDoc_eq_of_none (by rw [hww, Option.some_bind, hlook])
      have heq2 : r.document_metadata_list = (pre ++ [d]) ++ rest := by
        rw [heq, List.append_assoc, List.singleton_append]
      have hnodup2 : (((pre ++ [d]) ++ rest).map (fun x => x.Document)).Nodup := by
        rw [List.append_assoc, List.singleton_append]
        exact hnodup
      obtain ⟨m1, hrun, hlk, hoth⟩ := ih (pre ++ [d]) m r hrec heq2 hnodup2 hword2
      refine ⟨m1, ?_, ?_, hoth⟩
      · rw [syncDocsLoop, syncStep_no_match fk m hww hlook, Option.some_bind]
        exact hrun
      · rw [List.map_cons, hsync]
        rw [List.append_assoc, List.singleton_append] at hlk
        exact hlk
    | some p =>
      have hsync : syncDoc f d = { d with FS_Location := some p } :=
        syncDoc_eq_of_some (by rw [hww, Option.some_bind, hlook])
      have hnm : d ∉ pre := nodup_names_not_mem_left hnodup
      have hmod := modify_document_spec m fk d { d with FS_Location := some p } r pre rest
        hrec heq hnm
      have hrec1 : odLookup (odPop m fk ++ [(fk,
            { r with document_metadata_list :=
                pre ++ ({ d with FS_Location := some p } :: rest) })]) fk
          = some { r with document_metadata_list :=
              pre ++ ({ d with FS_Location := some p } :: rest) } :=
        odLookup_popAppend_self m fk _
      have heq1 : ({ r with document_metadata_list :=
            pre ++ ({ d with FS_Location := some p } :: rest) }).document_metadata_list
          = (pre ++ [{ d with FS_Location := some p }]) ++ rest := by
        rw [List.append_assoc, List.singleton_append]
      have hnodup1 :
          (((pre ++ [{ d with FS_Location := some p }]) ++ rest).map
              (fun x : DocumentMetadata => x.Document)).Nodup := by
        have hsame : ((pre ++ [{ d with FS_Location := some p }]) ++ rest).map
              (fun x : DocumentMetadata => x.Document)
            = (pre ++ (d :: rest)).map (fun x : DocumentMetadata => x.Document) := by
          simp [List.map_append]
        rw [hsame]
        exact hnodup
      obtain ⟨m2, hrun, hlk, hoth⟩ := ih (pre ++ [{ d with FS_Location := some p }])
        (odPop m fk ++ [(fk, { r with document_metadata_list :=
            pre ++ ({ d with FS_Location := some p } :: rest) })])
        { r with document_metadata_list :=
            pre ++ ({ d with FS_Location := some p } :: rest) }
        hrec1 heq1 hnodup1 hword2
      refine ⟨m2, ?_, ?_, ?_⟩
      · rw [syncDocsLoop, syncStep_match fk m hww hlook, hmod, Option.some_bind]
        exact hrun
      · rw [List.map_cons, hsync]
        rw [List.append_assoc, List.singleton_append] at hlk
        exact hlk
      · intro k hk
        rw [hoth k hk, odLookup_popAppend_ne m fk k _ hk]

theorem odLookup_of_nodup_mem {α : Type} :
    ∀ (m : List (List Char × α)), (m.map Prod.fst).Nodup →
      ∀ kr ∈ m, odLookup m kr.1 = some kr.2
  | [], _, kr, hm => absurd hm (List.not_mem_nil kr)
  | kv :: rest, hnd, kr, hm => by
    rcases List.mem_cons.mp hm with h1 | h2
    · subst h1
      rw [odLookup, if_pos rfl]
    · have hne : kv.1 ≠ kr.1 := by
        intro he
        rw [List.map_cons, List.nodup_cons] at hnd
        exact hnd.1 (he ▸ List.mem_map.mpr ⟨kr, h2, rfl⟩)
      rw [odLookup, if_neg hne]
      exact odLookup_of_nodup_mem rest
        (by rw [List.map_cons, List.nodup_cons] at hnd; exact hnd.2) kr h2

theorem syncRecsLoop_spec (f : FsMap) :
    ∀ (snap : List (List Char × Filing)) (m : FilingSet),
      (snap.map Prod.fst).Nodup →
      (∀ kr ∈ snap, odLookup m kr.1 = some kr.2) →
      (∀ kr ∈ snap, ((kr.2.document_metadata_list.map (fun x => x.Document)).Nodup)) →
      (∀ kr ∈ snap, ∀ d ∈ kr.2.document_metadata_list, (firstWord d.Document).isSome) →
      ∃ m1, syncRecsLoop f m snap = some m1
        ∧ (∀ kr ∈ snap, odLookup m1 kr.1
            = some { kr.2 with document_metadata_list :=
                kr.2.document_metadata_list.map (syncDoc f) })
        ∧ (∀ k, k ∉ snap.map Prod.fst → odLookup m1 k = odLookup m k) := by
  intro snap
  induction snap with
  | nil =>
    intro m _ _ _ _
    exact ⟨m, rfl, fun kr hkr => absurd hkr (List.not_mem_nil kr), fun k _ => rfl⟩
  | cons kv rest ih =>
    intro m hnd hlk hnames hword
    rw [List.map_cons, List.nodup_cons] at hnd
    obtain ⟨m1, hrun1, hlk1, hoth1⟩ := syncDocsLoop_spec f kv.1
      kv.2.document_metadata_list [] m kv.2
      (hlk kv (List.mem_cons_self _ _)) rfl
      (hnames kv (List.mem_cons_self _ _))
      (hword kv (List.mem_cons_self _ _))
    have hlkrest : ∀ kr ∈ rest, odLookup m1 kr.1 = some kr.2 := by
      intro kr hkr
      have hne : kr.1 ≠ kv.1 := by
        intro he
        exact hnd.1 (he ▸ List.mem_map.mpr ⟨kr, hkr, rfl⟩)
      rw [hoth1 kr.1 hne]
      exact hlk kr (List.mem_cons_of_mem kv hkr)
    obtain ⟨m2, hrun2, hlk2, hoth2⟩ := ih m1 hnd.2 hlkrest
      (fun kr hkr => hnames kr (List.mem_cons_of_mem kv hkr))
      (fun kr hkr => hword kr (List.mem_cons_of_mem kv hkr))
    refine ⟨m2, ?_, ?_, ?_⟩
    · show (syncDocsLoop f kv.1 m kv.2.document_metadata_list).bind
        (fun m1 => syncRecsLoop f m1 rest) = some m2
      rw [hrun1, Option.some_bind]
      exact hrun2
    · intro kr hkr
      rcases List.mem_cons.mp hkr with h1 | h2
      · subst h1
        rw [hoth2 kr.1 hnd.1]
        exact hlk1
      · exact hlk2 kr h2
    · intro k hk
      rw [List.map_cons] at hk
      have hk1 : k ∉ rest.map Prod.fst := fun hm => hk (List.mem_cons_of_mem _ hm)
      have hk2 : k ≠ kv.1 := fun he => hk (he ▸ List.mem_cons_self _ _)
      rw [hoth2 k hk1, hoth1 k hk2]

/-- C4 (amended): `sync_with_filesystem` maps every stored record's document
list pointwise through `syncDoc`: a document whose name (first word of
`Document`) matches a file on disk gets `FS_Location` set to that on-disk
path — regardless of whether `FS_Location` was already set — and every
other document is left unchanged; consequently among documents with unset
`FS_Location` exactly those with a matching file gain a location (the count
of located documents after the pass equals the count of documents that were
already located or have a matching file). -/
theorem sync_with_filesystem_characterization (m : FilingSet) (f : FsMap)
    (hkeys : (m.map Prod.fst).Nodup)
    (hnames : ∀ kr ∈ m, ((kr.2.document_metadata_list.map (fun x => x.Document)).Nodup))
    (hword : ∀ kr ∈ m, ∀ d ∈ kr.2.document_metadata_list, (firstWord d.Document).isSome) :
    ∃ m1, sync_with_filesystem m f = some m1
      ∧ (∀ kr ∈ m, odLookup m1 kr.1
          = some { kr.2 with document_metadata_list :=
              kr.2.document_metadata_list.map (syncDoc f) })
      ∧ (∀ d : DocumentMetadata, (syncDoc f d).FS_Location.isSome
          = (d.FS_Location.isSome || ((firstWord d.Document).bind (odLookup f)).isSome))
      ∧ (∀ l : List DocumentMetadata,
          (l.map (syncDoc f)).countP (fun d => d.FS_Location.isSome)
            = l.countP (fun d => d.FS_Location.isSome
                || ((firstWord d.Document).bind (odLookup f)).isSome)) := by
  obtain ⟨m1, hrun, hlk, _⟩ := syncRecsLoop_spec f m m hkeys
    (odLookup_of_nodup_mem m hkeys) hnames hword
  exact ⟨m1, hrun, hlk, syncDoc_FS f, countP_map_syncDoc f⟩

/-- C4 counterexample: a document whose `FS_Location` is already set
(`old/d6.htm`) but whose name `d6.htm` matches a file on disk at
`root/d6.htm` is modified by `sync_with_filesystem` — its location is
overwritten with the on-disk path — refuting the claim's "documents whose
localPath is already set are not modified". -/
theorem sync_overwrites_located_counterexample :
    sync_with_filesystem [(pys ("1|acc"), ⟨pys ("1"), pys ("acc"), [doc6]⟩)]
        [(pys ("d6.htm"), pys ("root/d6.htm"))]
      = some [(pys ("1|acc"), ⟨pys ("1"), pys ("acc"),
          [{ doc6 with FS_Location := some (pys ("root/d6.htm")) }]⟩)]
    ∧ doc6.FS_Location = some (pys ("old/d6.htm"))
    ∧ some (pys ("root/d6.htm")) ≠ doc6.FS_Location := by
  refine ⟨by decide, by decide, by decide⟩

/-- C4 witness: the amended theorem applied to a one-record, two-document
store where `d1.htm` exists on disk and `d2.htm` does not. -/
theorem sync_with_filesystem_characterization_witness :
    (((([(pys ("1|acc"), ⟨pys ("1"), pys ("acc"), [doc1, doc2]⟩)] : FilingSet).map
          Prod.fst).Nodup)
      ∧ (∀ kr ∈ ([(pys ("1|acc"), ⟨pys ("1"), pys ("acc"), [doc1, doc2]⟩)] : FilingSet),
          ((kr.2.document_metadata_list.map (fun x => x.Document)).Nodup))
      ∧ (∀ kr ∈ ([(pys ("1|acc"), ⟨pys ("1"), pys ("acc"), [doc1, doc2]⟩)] : FilingSet),
          ∀ d ∈ kr.2.document_metadata_list, (firstWord d.Document).isSome))
    ∧ (∃ m1, sync_with_filesystem [(pys ("1|acc"), ⟨pys ("1"), pys ("acc"), [doc1, doc2]⟩)]
          [(pys ("d1.htm"), pys ("root/d1.htm"))] = some m1
        ∧ (∀ kr ∈ ([(pys ("1|acc"), ⟨pys ("1"), pys ("acc"), [doc1, doc2]⟩)] : FilingSet),
            odLookup m1 kr.1
              = some { kr.2 with
                  document_metadata_list := kr.2.document_metadata_list.map
                    (syncDoc [(pys ("d1.htm"), pys ("root/d1.htm"))]) })
        ∧ (∀ d : DocumentMetadata,
            (syncDoc [(pys ("d1.htm"), pys ("root/d1.htm"))] d).FS_Location.isSome
              = (d.FS_Location.isSome
                  || ((firstWord d.Document).bind
                      (odLookup [(pys ("d1.htm"), pys ("root/d1.htm"))])).isSome))
        ∧ (∀ l : List DocumentMetadata,
            (l.map (syncDoc [(pys ("d1.htm"), pys ("root/d1.htm"))])).countP
                (fun d => d.FS_Location.isSome)
              = l.countP (fun d => d.FS_Location.isSome
                  || ((firstWord d.Document).bind
                      (odLookup [(pys ("d1.htm"), pys ("root/d1.htm"))])).isSome))) :=
  ⟨⟨by decide, by decide, by decide⟩,
    sync_with_filesystem_characterization
      [(pys ("1|acc"), ⟨pys ("1"), pys ("acc"), [doc1, doc2]⟩)]
      [(pys ("d1.htm"), pys ("root/d1.htm"))]
      (by decide) (by decide) (by decide)⟩

theorem indexOfDoc_some_decomp :
    ∀ {l : List DocumentMetadata} {d : DocumentMetadata} {i : Nat},
      indexOfDoc l d = some i →
      ∃ l1 l2, l = l1 ++ (d :: l2) ∧ d ∉ l1 ∧ i = l1.length := by
  intro l
  induction l with
  | nil => intro d i h; exact Option.noConfusion h
  | cons a rest ih =>
    intro d i h
    by_cases ha : a = d
    · subst ha
      rw [indexOfDoc, if_pos rfl] at h
      cases h
      exact ⟨[], rest, rfl, List.not_mem_nil a, rfl⟩
    · rw [indexOfDoc, if_neg ha] at h
      cases hi : indexOfDoc rest d with
      | none => rw [hi] at h; exact Option.noConfusion h
      | some j =>
        rw [hi] at h
        simp only [Option.map_some'] at h
        obtain ⟨l1, l2, heq, hnm, hlen⟩ := ih hi
        refine ⟨a :: l1, l2, by rw [List.cons_append, heq], ?_, ?_⟩
        · intro hm
          rcases List.mem_cons.mp hm with h1 | h2
          · exact ha h1.symm
          · exact hnm h2
        · rw [← Option.some.inj h, hlen, List.length_cons]

theorem modify_eq_some_decomp {m : FilingSet} {fk : List Char}
    {od nd : DocumentMetadata} {m1 : FilingSet}
    (h : modify_document_in_record m fk od nd = some m1) :
    ∃ r l1 l2, odLookup m fk = some r
      ∧ r.document_metadata_list = l1 ++ (od :: l2) ∧ od ∉ l1
      ∧ m1 = odPop m fk
          ++ [(fk, { r with document_metadata_list := l1 ++ (nd :: l2) })] := by
  unfold modify_document_in_record at h
  cases hl : odLookup m fk with
  | none => rw [hl] at h; exact Option.noConfusion h
  | some r =>
    rw [hl, Option.some_bind] at h
    cases hi : indexOfDoc r.document_metadata_list od with
    | none => rw [hi] at h; exact Option.noConfusion h
    | some i =>
      rw [hi, Option.some_bind] at h
      obtain ⟨l1, l2, heq, hnm, hlen⟩ := indexOfDoc_some_decomp hi
      refine ⟨r, l1, l2, rfl, heq, hnm, ?_⟩
      have hset : r.document_metadata_list.set i nd = l1 ++ (nd :: l2) := by
        rw [heq, hlen, set_append_length]
      rw [← Option.some.inj h, hset]

theorem modify_keys_isSome {m : FilingSet} {fk : List Char}
    {od nd : DocumentMetadata} {m1 : FilingSet}
    (h : modify_document_in_record m fk od nd = some m1) :
    ∀ k, (odLookup m1 k).isSome = (odLookup m k).isSome := by
  obtain ⟨r, l1, l2, hl, _, _, hm1⟩ := modify_eq_some_decomp h
  intro k
  by_cases hk : k = fk
  · rw [hk, hm1, odLookup_popAppend_self, hl]
    rfl
  · rw [hm1, odLookup_popAppend_ne m fk k _ hk]

theorem modify_preserves_located {m : FilingSet} {fk : List Char}
    {od nd : DocumentMetadata} {m1 : FilingSet}
    (h : modify_document_in_record m fk od nd = some m1)
    (hod : od.FS_Location = none) :
    ∀ k r2, odLookup m k = some r2 → ∀ dd ∈ r2.document_metadata_list,
      dd.FS_Location.isSome = true →
      ∃ r3, odLookup m1 k = some r3 ∧ dd ∈ r3.document_metadata_list := by
  obtain ⟨r, l1, l2, hl, heq, hnm, hm1⟩ := modify_eq_some_decomp h
  intro k r2 hk2 dd hdd hloc
  by_cases hk : k = fk
  · subst hk
    have hr : r2 = r := Option.some.inj (hk2.symm.trans hl)
    subst hr
    have hdne : dd ≠ od := by
      intro he
      rw [he, hod] at hloc
      exact Bool.noConfusion hloc
    refine ⟨{ r2 with document_metadata_list := l1 ++ (nd :: l2) },
      by rw [hm1]; exact odLookup_popAppend_self m _ _, ?_⟩
    rw [heq] at hdd
    rcases List.mem_append.mp hdd with h1 | h2
    · exact List.mem_append.mpr (Or.inl h1)
    · rcases List.mem_cons.mp h2 with h3 | h4
      · exact absurd h3 hdne
      · exact List.mem_append.mpr (Or.inr (List.mem_cons_of_mem nd h4))
  · refine ⟨r2, ?_, hdd⟩
    rw [hm1, odLookup_popAppend_ne m fk k _ hk]
    exact hk2

theorem download_urls_cons_badkey (folder : List Char)
    (fetch : List Char → Option (List Char)) (m : FilingSet) (key : List Char)
    (doc : DocumentMetadata) (rest : List (List Char × DocumentMetadata))
    (hsp : ∀ c1 c2 c3, splitOnChar '|' key ≠ [c1, c2, c3]) :
    download_urls folder fetch m ((key, doc) :: rest) = none := by
  rw [download_urls]
  rcases hs : splitOnChar '|' key with _ | ⟨a, _ | ⟨b, _ | ⟨c, _ | ⟨d, t⟩⟩⟩⟩
  · rfl
  · rfl
  · rfl
  · exact absurd hs (hsp a b c)
  · rfl

theorem download_urls_cons_prev (folder : List Char)
    (fetch : List Char → Option (List Char)) (m : FilingSet) (key : List Char)
    (doc : DocumentMetadata) (rest : List (List Char × DocumentMetadata))
    (c1 c2 c3 loc : List Char)
    (hsp : splitOnChar '|' key = [c1, c2, c3]) (hfs : doc.FS_Location = some loc) :
    download_urls folder fetch m ((key, doc) :: rest)
      = (download_urls folder fetch m rest).bind fun mr =>
          some (mr.1, { mr.2 with previousDocs := doc :: mr.2.previousDocs }) := by
  rw [download_urls, hsp, hfs]

theorem download_urls_cons_fail (folder : List Char)
    (fetch : List Char → Option (List Char)) (m : FilingSet) (key : List Char)
    (doc : DocumentMetadata) (rest : List (List Char × DocumentMetadata))
    (c1 c2 c3 : List Char)
    (hsp : splitOnChar '|' key = [c1, c2, c3]) (hfs : doc.FS_Location = none)
    (hfetch : fetch (dl_base_url ++ doc.URL) = none) :
    download_urls folder fetch m ((key, doc) :: rest)
      = (download_urls folder fetch m rest).bind fun mr =>
          some (mr.1, { mr.2 with
            failDocs := doc :: mr.2.failDocs,
            fetched := (dl_base_url ++ doc.URL) :: mr.2.fetched }) := by
  rw [download_urls, hsp, hfs, hfetch]

theorem download_urls_cons_new (folder : List Char)
    (fetch : List Char → Option (List Char)) (m : FilingSet) (key : List Char)
    (doc : DocumentMetadata) (rest : List (List Char × DocumentMetadata))
    (c1 c2 c3 content : List Char)
    (hsp : splitOnChar '|' key = [c1, c2, c3]) (hfs : doc.FS_Location = none)
    (hfetch : fetch (dl_base_url ++ doc.URL) = some content) :
    download_urls folder fetch m ((key, doc) :: rest)
      = (modify_document_in_record m (c1 ++ ('|' :: c2)) doc
            { doc with
              FS_Location := some (mkSavePath folder c1 c2 doc.Document) }).bind
          fun m1 =>
            (download_urls folder fetch m1 rest).bind fun mr =>
              some (mr.1, { mr.2 with
                newDocs := { doc with
                  FS_Location := some (mkSavePath folder c1 c2 doc.Document) }
                    :: mr.2.newDocs,
                fetched := (dl_base_url ++ doc.URL) :: mr.2.fetched,
                written := (mkSavePath folder c1 c2 doc.Document, content)
                    :: mr.2.written }) := by
  rw [download_urls, hsp, hfs, hfetch]

theorem download_urls_spec (folder : List Char) (fetch : List Char → Option (List Char)) :
    ∀ (docs : List (List Char × DocumentMetadata)) (m m2 : FilingSet) (r : DownloadResult),
      download_urls folder fetch m docs = some (m2, r) →
      r.previousDocs = (docs.filter (fun kd => kd.2.FS_Location.isSome)).map Prod.snd
      ∧ r.fetched = (docs.filter (fun kd => kd.2.FS_Location.isNone)).map
          (fun kd => dl_base_url ++ kd.2.URL)
      ∧ r.failDocs = (docs.filter (fun kd =>
          kd.2.FS_Location.isNone && (fetch (dl_base_url ++ kd.2.URL)).isNone)).map Prod.snd
      ∧ r.newDocs = (docs.filter (fun kd =>
          kd.2.FS_Location.isNone && (fetch (dl_base_url ++ kd.2.URL)).isSome)).map
          (fun kd => { kd.2 with FS_Location := some (savePathFor folder kd) })
      ∧ r.written = (docs.filter (fun kd =>
          kd.2.FS_Location.isNone && (fetch (dl_base_url ++ kd.2.URL)).isSome)).map
          (fun kd => (savePathFor folder kd, (fetch (dl_base_url ++ kd.2.URL)).getD []))
      ∧ ((∀ kd ∈ docs, kd.2.FS_Location.isSome = true) → m2 = m)
      ∧ (∀ k, (odLookup m2 k).isSome = (odLookup m k).isSome)
      ∧ (∀ k r2, odLookup m k = some r2 → ∀ dd ∈ r2.document_metadata_list,
          dd.FS_Location.isSome = true →
          ∃ r3, odLookup m2 k = some r3 ∧ dd ∈ r3.document_metadata_list) := by
  intro docs
  induction docs with
  | nil =>
    intro m m2 r h
    rw [download_urls] at h
    simp only [Option.some.injEq, Prod.mk.injEq] at h
    obtain ⟨h1, h2⟩ := h
    subst h1
    subst h2
    exact ⟨rfl, rfl, rfl, rfl, rfl, fun _ => rfl, fun k => rfl,
      fun k r2 hk2 dd hdd _ => ⟨r2, hk2, hdd⟩⟩
  | cons kd rest ih =>
    intro m m2 r h
    obtain ⟨key, doc⟩ := kd
    by_cases hsp3 : ∃ c1 c2 c3, splitOnChar '|' key = [c1, c2, c3]
    · obtain ⟨c1, c2, c3, hsp⟩ := hsp3
      cases hfs : doc.FS_Location with
      | some loc =>
        rw [download_urls_cons_prev folder fetch m key doc rest c1 c2 c3 loc hsp hfs] at h
        cases hrest : download_urls folder fetch m rest with
        | none => rw [hrest] at h; exact Option.noConfusion h
        | some mr =>
          rw [hrest, Option.some_bind] at h
          simp only [Option.some.injEq, Prod.mk.injEq] at h
          obtain ⟨h1, h2⟩ := h
          subst h1
          subst h2
          obtain ⟨ih1, ih2, ih3, ih4, ih5, ih6, ih7, ih8⟩ :=
            ih m mr.1 mr.2 (by rw [hrest])
          have hfil1 : ((key, doc) :: rest).filter (fun x => x.2.FS_Location.isSome)
              = (key, doc) :: rest.filter (fun x => x.2.FS_Location.isSome) := by
            rw [List.filter_cons]
            simp [hfs]
          have hfil2 : ((key, doc) :: rest).filter (fun x => x.2.FS_Location.isNone)
              = rest.filter (fun x => x.2.FS_Location.isNone) := by
            rw [List.filter_cons]
            simp [hfs]
          have hfil3 : ((key, doc) :: rest).filter (fun x =>
                x.2.FS_Location.isNone && (fetch (dl_base_url ++ x.2.URL)).isNone)
              = rest.filter (fun x =>
                x.2.FS_Location.isNone && (fetch (dl_base_url ++ x.2.URL)).isNone) := by
            rw [List.filter_cons]
            simp [hfs]
          have hfil4 : ((key, doc) :: rest).filter (fun x =>
                x.2.FS_Location.isNone && (fetch (dl_base_url ++ x.2.URL)).isSome)
              = rest.filter (fun x =>
                x.2.FS_Location.isNone && (fetch (dl_base_url ++ x.2.URL)).isSome) := by
            rw [List.filter_cons]
            simp [hfs]
          refine ⟨?_, ?_, ?_, ?_, ?_, ?_, ih7, ih8⟩
          · show doc :: mr.2.previousDocs = _
            rw [hfil1, List.map_cons, ih1]
          · show mr.2.fetched = _
            rw [hfil2]
            exact ih2
          · show mr.2.failDocs = _
            rw [hfil3]
            exact ih3
          · show mr.2.newDocs = _
            rw [hfil4]
            exact ih4
          · show mr.2.written = _
            rw [hfil4]
            exact ih5
          · intro hall
            exact ih6 fun x hx => hall x (List.mem_cons_of_mem _ hx)
      | none =>
        cases hfetch : fetch (dl_base_url ++ doc.URL) with
        | none =>
          rw [download_urls_cons_fail folder fetch m key doc rest c1 c2 c3
            hsp hfs hfetch] at h
          cases hrest : download_urls folder fetch m rest with
          | none => rw [hrest] at h; exact Option.noConfusion h
          | some mr =>
            rw [hrest, Option.some_bind] at h
            simp only [Option.some.injEq, Prod.mk.injEq] at h
            obtain ⟨h1, h2⟩ := h
            subst h1
            subst h2
            obtain ⟨ih1, ih2, ih3, ih4, ih5, ih6, ih7, ih8⟩ :=
              ih m mr.1 mr.2 (by rw [hrest])
            have hfil1 : ((key, doc) :: rest).filter (fun x => x.2.FS_Location.isSome)
                = rest.filter (fun x => x.2.FS_Location.isSome) := by
              rw [List.filter_cons]
              simp [hfs]
            have hfil2 : ((key, doc) :: rest).filter (fun x => x.2.FS_Location.isNone)
                = (key, doc) :: rest.filter (fun x => x.2.FS_Location.isNone) := by
              rw [List.filter_cons]
              simp [hfs]
            have hfil3 : ((key, doc) :: rest).filter (fun x =>
                  x.2.FS_Location.isNone && (fetch (dl_base_url ++ x.2.URL)).isNone)
                = (key, doc) :: rest.filter (fun x =>
                  x.2.FS_Location.isNone && (fetch (dl_base_url ++ x.2.URL)).isNone) := by
              rw [List.filter_cons]
              simp [hfs, hfetch]
            have hfil4 : ((key, doc) :: rest).filter (fun x =>
                  x.2.FS_Location.isNone && (fetch (dl_base_url ++ x.2.URL)).isSome)
                = rest.filter (fun x =>
                  x.2.FS_Location.isNone && (fetch (dl_base_url ++ x.2.URL)).isSome) := by
              rw [List.filter_cons]
              simp [hfs, hfetch]
            refine ⟨?_, ?_, ?_, ?_, ?_, ?_, ih7, ih8⟩
            · show mr.2.previousDocs = _
              rw [hfil1]
              exact ih1
            · show (dl_base_url ++ doc.URL) :: mr.2.fetched = _
              rw [hfil2, List.map_cons, ih2]
            · show doc :: mr.2.failDocs = _
              rw [hfil3, List.map_cons, ih3]
            · show mr.2.newDocs = _
              rw [hfil4]
              exact ih4
            · show mr.2.written = _
              rw [hfil4]
              exact ih5
            · intro hall
              have hc := hall (key, doc) (List.mem_cons_self _ _)
              rw [hfs] at hc
              exact Bool.noConfusion hc
        | some content =>
          rw [download_urls_cons_new folder fetch m key doc rest c1 c2 c3 content
            hsp hfs hfetch] at h
          cases hmod : modify_document_in_record m (c1 ++ ('|' :: c2)) doc
              { doc with FS_Location := some (mkSavePath folder c1 c2 doc.Document) } with
          | none => rw [hmod] at h; exact Option.noConfusion h
          | some m1 =>
            rw [hmod, Option.some_bind] at h
            cases hrest : download_urls folder fetch m1 rest with
            | none => rw [hrest] at h; exact Option.noConfusion h
            | some mr =>
              rw [hrest, Option.some_bind] at h
              simp only [Option.some.injEq, Prod.mk.injEq] at h
              obtain ⟨h1, h2⟩ := h
              subst h1
              subst h2
              obtain ⟨ih1, ih2, ih3, ih4, ih5, ih6, ih7, ih8⟩ :=
                ih m1 mr.1 mr.2 (by rw [hrest])
              have hsv : savePathFor folder (key, doc)
                  = mkSavePath folder c1 c2 doc.Document := by
                unfold savePathFor
                rw [hsp]
              have hfil1 : ((key, doc) :: rest).filter (fun x => x.2.FS_Location.isSome)
                  = rest.filter (fun x => x.2.FS_Location.isSome) := by
                rw [List.filter_cons]
                simp [hfs]
              have hfil2 : ((key, doc) :: rest).filter (fun x => x.2.FS_Location.isNone)
                  = (key, doc) :: rest.filter (fun x => x.2.FS_Location.isNone) := by
                rw [List.filter_cons]
                simp [hfs]
              have hfil3 : ((key, doc) :: rest).filter (fun x =>
                    x.2.FS_Location.isNone && (fetch (dl_base_url ++ x.2.URL)).isNone)
                  = rest.filter (fun x =>
                    x.2.FS_Location.isNone && (fetch (dl_base_url ++ x.2.URL)).isNone) := by
                rw [List.filter_cons]
                simp [hfs, hfetch]
              have hfil4 : ((key, doc) :: rest).filter (fun x =>
                    x.2.FS_Location.isNone && (fetch (dl_base_url ++ x.2.URL)).isSome)
                  = (key, doc) :: rest.filter (fun x =>
                    x.2.FS_Location.isNone && (fetch (dl_base_url ++ x.2.URL)).isSome) := by
                rw [List.filter_cons]
                simp [hfs, hfetch]
              refine ⟨?_, ?_, ?_, ?_, ?_, ?_, ?_, ?_⟩
              · show mr.2.previousDocs = _
                rw [hfil1]
                exact ih1
              · show (dl_base_url ++ doc.URL) :: mr.2.fetched = _
                rw [hfil2, List.map_cons, ih2]
              · show mr.2.failDocs = _
                rw [hfil3]
                exact ih3
              · show { doc with
                    FS_Location := some (mkSavePath folder c1 c2 doc.Document) }
                      :: mr.2.newDocs = _
                rw [hfil4, List.map_cons, ih4]
                congr 1
                show ({ doc with
                      FS_Location := some (mkSavePath folder c1 c2 doc.Document) }
                    : DocumentMetadata)
                  = { doc with FS_Location := some (savePathFor folder (key, doc)) }
                rw [hsv]
              · show (mkSavePath folder c1 c2 doc.Document, content) :: mr.2.written = _
                rw [hfil4, List.map_cons, ih5]
                congr 1
                show (mkSavePath folder c1 c2 doc.Document, content)
                  = (savePathFor folder (key, doc),
                      (fetch (dl_base_url ++ doc.URL)).getD [])
                rw [hsv, hfetch]
                rfl
              · intro hall
                have hc := hall (key, doc) (List.mem_cons_self _ _)
                rw [hfs] at hc
                exact Bool.noConfusion hc
              · intro k
                rw [ih7 k, modify_keys_isSome hmod k]
              · intro k r2 hk2 dd hdd hloc
                obtain ⟨r3, hk3, hdd3⟩ :=
                  modify_preserves_located hmod hfs k r2 hk2 dd hdd hloc
                exact ih8 k r3 hk3 dd hdd3 hloc
    · rw [download_urls_cons_badkey folder fetch m key doc rest
        (fun a b c he => hsp3 ⟨a, b, c, he⟩)] at h
      exact Option.noConfusion h

/-- C2: documents handed to `download_urls` with an already-set
`FS_Location` are never fetched and never written — the request trace holds
exactly the URLs of the unlocated documents and the write trace exactly the
save paths of the successfully fetched unlocated documents — they are placed
on the `previous` result list untouched, a batch consisting only of located
documents leaves the store unchanged, and every already-located document of
every stored record is still present in its record after the batch. -/
theorem download_urls_skips_located_documents (folder : List Char)
    (fetch : List Char → Option (List Char))
    (docs : List (List Char × DocumentMetadata)) (m m2 : FilingSet) (r : DownloadResult)
    (h : download_urls folder fetch m docs = some (m2, r)) :
    r.previousDocs = (docs.filter (fun kd => kd.2.FS_Location.isSome)).map Prod.snd
    ∧ r.fetched = (docs.filter (fun kd => kd.2.FS_Location.isNone)).map
        (fun kd => dl_base_url ++ kd.2.URL)
    ∧ r.written = (docs.filter (fun kd =>
        kd.2.FS_Location.isNone && (fetch (dl_base_url ++ kd.2.URL)).isSome)).map
        (fun kd => (savePathFor folder kd, (fetch (dl_base_url ++ kd.2.URL)).getD []))
    ∧ ((∀ kd ∈ docs, kd.2.FS_Location.isSome = true) → m2 = m)
    ∧ (∀ k r2, odLookup m k = some r2 → ∀ dd ∈ r2.document_metadata_list,
        dd.FS_Location.isSome = true →
        ∃ r3, odLookup m2 k = some r3 ∧ dd ∈ r3.document_metadata_list) := by
  obtain ⟨h1, h2, h3, h4, h5, h6, h7, h8⟩ := download_urls_spec folder fetch docs m m2 r h
  exact ⟨h1, h2, h5, h6, h8⟩

/-- C2 witness: a two-document batch where `doc6` is already located and
`doc1` is not; the run downloads only `doc1` and puts `doc6` on the
previous list untouched. -/
theorem download_urls_skips_located_documents_witness :
    download_urls (pys ("dl")) dlFetchAll
        [(pys ("1|acc"), ⟨pys ("1"), pys ("acc"), [doc1, doc6]⟩)]
        [(pys ("1|acc|6"), doc6), (pys ("1|acc|1"), doc1)]
      = some ([(pys ("1|acc"), ⟨pys ("1"), pys ("acc"), [doc1dl, doc6]⟩)],
          ⟨[doc1dl], [doc6], [], [dl_base_url ++ doc1.URL],
            [(mkSavePath (pys ("dl")) (pys ("1")) (pys ("acc")) (pys ("d1.htm")), [])]⟩)
    ∧ ((⟨[doc1dl], [doc6], [], [dl_base_url ++ doc1.URL],
          [(mkSavePath (pys ("dl")) (pys ("1")) (pys ("acc")) (pys ("d1.htm")), [])]⟩
            : DownloadResult).previousDocs
        = (([(pys ("1|acc|6"), doc6), (pys ("1|acc|1"), doc1)].filter
            (fun kd => kd.2.FS_Location.isSome)).map Prod.snd)) := by
  have hrun : download_urls (pys ("dl")) dlFetchAll
      [(pys ("1|acc"), ⟨pys ("1"), pys ("acc"), [doc1, doc6]⟩)]
      [(pys ("1|acc|6"), doc6), (pys ("1|acc|1"), doc1)]
      = some ([(pys ("1|acc"), ⟨pys ("1"), pys ("acc"), [doc1dl, doc6]⟩)],
          ⟨[doc1dl], [doc6], [], [dl_base_url ++ doc1.URL],
            [(mkSavePath (pys ("dl")) (pys ("1")) (pys ("acc")) (pys ("d1.htm")), [])]⟩) := by
    decide
  exact ⟨hrun, (download_urls_skips_located_documents (pys ("dl")) dlFetchAll
    [(pys ("1|acc|6"), doc6), (pys ("1|acc|1"), doc1)]
    [(pys ("1|acc"), ⟨pys ("1"), pys ("acc"), [doc1, doc6]⟩)] _ _ hrun).1⟩

/-- C6: a failed fetch does not abort the batch — the request trace shows
that every unlocated document in the list was attempted, regardless of
earlier failures; the fail list holds exactly the documents whose fetch
failed, and the new list exactly the successfully fetched documents with
their recorded save paths. -/
theorem download_urls_failure_isolation (folder : List Char)
    (fetch : List Char → Option (List Char))
    (docs : List (List Char × DocumentMetadata)) (m m2 : FilingSet) (r : DownloadResult)
    (h : download_urls folder fetch m docs = some (m2, r)) :
    r.fetched = (docs.filter (fun kd => kd.2.FS_Location.isNone)).map
        (fun kd => dl_base_url ++ kd.2.URL)
    ∧ r.failDocs = (docs.filter (fun kd =>
        kd.2.FS_Location.isNone && (fetch (dl_base_url ++ kd.2.URL)).isNone)).map Prod.snd
    ∧ r.newDocs = (docs.filter (fun kd =>
        kd.2.FS_Location.isNone && (fetch (dl_base_url ++ kd.2.URL)).isSome)).map
        (fun kd => { kd.2 with FS_Location := some (savePathFor folder kd) }) := by
  obtain ⟨h1, h2, h3, h4, h5, h6, h7, h8⟩ := download_urls_spec folder fetch docs m m2 r h
  exact ⟨h2, h3, h4⟩

/-- C6 witness: a three-document batch in which exactly the second fetch
fails; documents one and three are still fetched and recorded, and the
fail list is exactly `[doc2]`. -/
theorem download_urls_failure_isolation_witness :
    download_urls (pys ("dl")) dlFetchW
        [(pys ("1|acc"), ⟨pys ("1"), pys ("acc"), [doc1, doc2, doc3]⟩)]
        [(pys ("1|acc|1"), doc1), (pys ("1|acc|2"), doc2), (pys ("1|acc|3"), doc3)]
      = some ([(pys ("1|acc"), ⟨pys ("1"), pys ("acc"), [doc1dl, doc2, doc3dl]⟩)],
          ⟨[doc1dl, doc3dl], [], [doc2],
            [dl_base_url ++ doc1.URL, dl_base_url ++ doc2.URL, dl_base_url ++ doc3.URL],
            [(mkSavePath (pys ("dl")) (pys ("1")) (pys ("acc")) (pys ("d1.htm")), []),
             (mkSavePath (pys ("dl")) (pys ("1")) (pys ("acc")) (pys ("d3.htm")), [])]⟩)
    ∧ ((⟨[doc1dl, doc3dl], [], [doc2],
          [dl_base_url ++ doc1.URL, dl_base_url ++ doc2.URL, dl_base_url ++ doc3.URL],
          [(mkSavePath (pys ("dl")) (pys ("1")) (pys ("acc")) (pys ("d1.htm")), []),
           (mkSavePath (pys ("dl")) (pys ("1")) (pys ("acc")) (pys ("d3.htm")), [])]⟩
            : DownloadResult).failDocs
        = (([(pys ("1|acc|1"), doc1), (pys ("1|acc|2"), doc2),
              (pys ("1|acc|3"), doc3)].filter
            (fun kd => kd.2.FS_Location.isNone
              && (dlFetchW (dl_base_url ++ kd.2.URL)).isNone)).map Prod.snd)) := by
  have hrun : download_urls (pys ("dl")) dlFetchW
      [(pys ("1|acc"), ⟨pys ("1"), pys ("acc"), [doc1, doc2, doc3]⟩)]
      [(pys ("1|acc|1"), doc1), (pys ("1|acc|2"), doc2), (pys ("1|acc|3"), doc3)]
      = some ([(pys ("1|acc"), ⟨pys ("1"), pys ("acc"), [doc1dl, doc2, doc3dl]⟩)],
          ⟨[doc1dl, doc3dl], [], [doc2],
            [dl_base_url ++ doc1.URL, dl_base_url ++ doc2.URL, dl_base_url ++ doc3.URL],
            [(mkSavePath (pys ("dl")) (pys ("1")) (pys ("acc")) (pys ("d1.htm")), []),
             (mkSavePath (pys ("dl")) (pys ("1")) (pys ("acc")) (pys ("d3.htm")), [])]⟩) := by
    decide
  exact ⟨hrun, (download_urls_failure_isolation (pys ("dl")) dlFetchW
    [(pys ("1|acc|1"), doc1), (pys ("1|acc|2"), doc2), (pys ("1|acc|3"), doc3)]
    [(pys ("1|acc"), ⟨pys ("1"), pys ("acc"), [doc1, doc2, doc3]⟩)] _ _ hrun).2.1⟩

/-- C10: after `_get_filing_documents` populates a `Filing`, the six derived
URL attributes each hold a one-element tuple (whose sole element is the URL
string or `None`) as a consequence of the trailing commas in the assignment
statements — never a plain string — while `zip_compressed_file_url`, whose
assignment has no trailing comma, holds the plain string. -/
theorem filing_url_attrs_tuple_shape
    (url_text url_ixbrl url_xlsx url_exhibit url_xbrl : Option (List Char))
    (filled_url url_zip : List Char) :
    (populate_filing_urls url_text url_ixbrl url_xlsx url_exhibit url_xbrl
        filled_url url_zip).full_submission_url = PyVal.tuple1 (optToPy url_text)
    ∧ (populate_filing_urls url_text url_ixbrl url_xlsx url_exhibit url_xbrl
        filled_url url_zip).filing_details_url = PyVal.tuple1 (optToPy url_ixbrl)
    ∧ (populate_filing_urls url_text url_ixbrl url_xlsx url_exhibit url_xbrl
        filled_url url_zip).filing_detail_page_url = PyVal.tuple1 (PyVal.str filled_url)
    ∧ (populate_filing_urls url_text url_ixbrl url_xlsx url_exhibit url_xbrl
        filled_url url_zip).xlsx_financial_report_url = PyVal.tuple1 (optToPy url_xlsx)
    ∧ (populate_filing_urls url_text url_ixbrl url_xlsx url_exhibit url_xbrl
        filled_url url_zip).html_exhibits_url = PyVal.tuple1 (optToPy url_exhibit)
    ∧ (populate_filing_urls url_text url_ixbrl url_xlsx url_exhibit url_xbrl
        filled_url url_zip).xbrl_instance_doc_url = PyVal.tuple1 (optToPy url_xbrl)
    ∧ (populate_filing_urls url_text url_ixbrl url_xlsx url_exhibit url_xbrl
        filled_url url_zip).zip_compressed_file_url = PyVal.str url_zip
    ∧ (∀ s, (populate_filing_urls url_text url_ixbrl url_xlsx url_exhibit url_xbrl
        filled_url url_zip).full_submission_url ≠ PyVal.str s)
    ∧ (∀ s, (populate_filing_urls url_text url_ixbrl url_xlsx url_exhibit url_xbrl
        filled_url url_zip).xbrl_instance_doc_url ≠ PyVal.str s)
    ∧ (∀ s, (populate_filing_urls url_text url_ixbrl url_xlsx url_exhibit url_xbrl
        filled_url url_zip).filing_detail_page_url ≠ PyVal.str s) :=
  ⟨rfl, rfl, rfl, rfl, rfl, rfl, rfl,
    fun _ h => PyVal.noConfusion h,
    fun _ h => PyVal.noConfusion h,
    fun _ h => PyVal.noConfusion h⟩

theorem head_filter_eq_find {α : Type} (p : α → Bool) :
    ∀ l : List α, (l.filter p).head? = l.find? p := by
  intro l
  induction l with
  | nil => rfl
  | cons a t ih =>
    by_cases hp : p a = true
    · rw [List.filter_cons, if_pos hp, List.find?_cons_of_pos _ hp]
      rfl
    · rw [List.filter_cons, if_neg hp, List.find?_cons_of_neg _ hp, ih]

theorem rowsMatching_cons_some (row : List (List Char)) (rest : List (List (List Char)))
    (i : Nat) (v cell : List Char) (hg : row.get? i = some cell) :
    rowsMatching (row :: rest) i v
      = (rowsMatching rest i v).map (fun tl => if cell = v then row :: tl else tl) := by
  rw [rowsMatching, hg]

theorem rowsMatching_eq :
    ∀ (data : List (List (List Char))) (i : Nat) (v : List Char),
      (∀ row ∈ data, i < row.length) →
      rowsMatching data i v = some (data.filter (rowHasCell i v)) := by
  intro data
  induction data with
  | nil => intro i v _; rfl
  | cons row rest ih =>
    intro i v h
    have hi : i < row.length := h row (List.mem_cons_self _ _)
    cases hg : row.get? i with
    | none =>
      rw [List.get?_eq_none] at hg
      omega
    | some cell =>
      rw [rowsMatching_cons_some row rest i v cell hg,
        ih i v fun r hr => h r (List.mem_cons_of_mem _ hr),
        Option.map_some', List.filter_cons]
      by_cases hc : cell = v
      · have hb : rowHasCell i v row = true := by
          rw [rowHasCell, hg, hc]
          exact decide_eq_true rfl
        rw [if_pos hc, if_pos hb]
      · have hb : ¬ rowHasCell i v row = true := by
          rw [rowHasCell, hg]
          simp [hc]
        rw [if_neg hc, if_neg hb]

theorem headOrNotFound_some {rows : List (List (List Char))} {row : List (List Char)}
    (hh : rows.head? = some row) : headOrNotFound rows = Except.ok row := by
  unfold headOrNotFound
  rw [hh]

theorem headOrNotFound_none {rows : List (List (List Char))}
    (hh : rows.head? = none) : headOrNotFound rows = Except.error FirmError.notFound := by
  unfold headOrNotFound
  rw [hh]

theorem matchedRow_eq {data : List (List (List Char))} {i : Nat} {value : List Char}
    {rows : List (List (List Char))} (hm : rowsMatching data i value = some rows) :
    matchedRow data i value = headOrNotFound rows := by
  unfold matchedRow
  rw [hm]

theorem exactLookup_eq {reg : Registry} {param : List Char} {i : Nat} (value : List Char)
    (hfi : fieldIndex reg.fields param = some i) :
    exactLookup reg param value = matchedRow reg.data i value := by
  unfold exactLookup
  rw [hfi]

theorem fuzzyLookup_eq {reg : Registry} {names : List (List Char)}
    (chooser : List Char → List (List Char) → Option (List Char)) (value : List Char)
    (hn : namesColumn reg.data = some names) :
    fuzzyLookup chooser reg value = fuzzyChoose chooser reg value names := by
  unfold fuzzyLookup
  rw [hn]

theorem fuzzyChoose_none {chooser : List Char → List (List Char) → Option (List Char)}
    {reg : Registry} {value : List Char} {names : List (List Char)}
    (hch : chooser value names = none) :
    fuzzyChoose chooser reg value names = Except.error FirmError.notFound := by
  unfold fuzzyChoose
  rw [hch]

theorem firmRegistryLookup_ticker
    (chooser : List Char → List (List Char) → Option (List Char))
    (reg : Registry) (u : List Char) :
    firmRegistryLookup chooser reg (pys ("ticker")) u
      = exactLookup reg (pys ("ticker")) u := by
  unfold firmRegistryLookup
  rw [if_pos (Or.inr rfl)]

theorem firmRegistryLookup_name
    (chooser : List Char → List (List Char) → Option (List Char))
    (reg : Registry) (u : List Char) :
    firmRegistryLookup chooser reg (pys ("name")) u = fuzzyLookup chooser reg u := by
  unfold firmRegistryLookup
  rw [if_neg (by decide), if_pos rfl]

theorem Firm_init_ticker (chooser : List Char → List (List Char) → Option (List Char))
    (st : FirmState) (freshReg : Registry) (v : List Char) :
    Firm_init chooser st freshReg none (some v) none
      = Firm_provision st freshReg
          (firmRegistryLookup chooser (st.sec_registry.getD freshReg)
            (pys ("ticker")) (upperStr v)) := rfl

theorem Firm_init_name (chooser : List Char → List (List Char) → Option (List Char))
    (st : FirmState) (freshReg : Registry) (v : List Char) :
    Firm_init chooser st freshReg none none (some v)
      = Firm_provision st freshReg
          (firmRegistryLookup chooser (st.sec_registry.getD freshReg)
            (pys ("name")) (upperStr v)) := rfl

theorem Firm_provision_error (st : FirmState) (freshReg : Registry) (e : FirmError) :
    Firm_provision st freshReg (Except.error e)
      = ({ st with sec_registry := some (st.sec_registry.getD freshReg) },
          Except.error e) := rfl

theorem Firm_provision_ok (st : FirmState) (freshReg : Registry)
    (c n t e : List Char) (rest2 : List (List Char)) :
    Firm_provision st freshReg (Except.ok (c :: (n :: (t :: (e :: rest2)))))
      = if c ∈ st.seen_ciks then
          ({ st with sec_registry := some (st.sec_registry.getD freshReg) },
            Except.error FirmError.lookupError)
        else
          ({ seen_ciks := c :: st.seen_ciks,
             sec_registry := some (st.sec_registry.getD freshReg) },
            Except.ok ⟨c, n, t, e⟩) := rfl

theorem Firm_record_some (st : FirmState) (freshReg : Registry) (info : FirmInfo) :
    Firm_record st freshReg (some info)
      = if info.cik ∈ st.seen_ciks then
          ({ st with sec_registry := some (st.sec_registry.getD freshReg) },
            Except.error FirmError.lookupError)
        else
          ({ seen_ciks := info.cik :: st.seen_ciks,
             sec_registry := some (st.sec_registry.getD freshReg) },
            Except.ok info) := rfl

theorem Firm_provision_fst_registry (st : FirmState) (freshReg : Registry) :
    ∀ res, (Firm_provision st freshReg res).1.sec_registry
      = some (st.sec_registry.getD freshReg) := by
  intro res
  cases res with
  | error e => rfl
  | ok row =>
    show (Firm_record st freshReg (mkFirmInfo row)).1.sec_registry = _
    cases hmk : mkFirmInfo row with
    | none => rfl
    | some info =>
      rw [Firm_record_some]
      by_cases hmem : info.cik ∈ st.seen_ciks
      · rw [if_pos hmem]
      · rw [if_neg hmem]

/-- C9 (amended): against the cached-or-freshly-fetched registry, ticker
resolution returns the firm information of the first row whose ticker
column matches the upper-cased key — but only the *first* time: if the
resolved cik was already seen in this process, `Firm.__init__` raises
`LookupError` instead of succeeding from the cache.  When no row matches,
resolution fails with `NotFound` (`IndexError`); a fuzzy name resolution
over an empty registry also fails with `NotFound`; and the registry is
fetched at most once — the state after any ticker resolution caches the
effective registry, so later calls reuse it. -/
theorem firm_resolution_characterization
    (chooser : List Char → List (List Char) → Option (List Char))
    (st : FirmState) (freshReg : Registry) (v : List Char)
    (hfields : (st.sec_registry.getD freshReg).fields
        = [pys ("cik"), pys ("name"), pys ("ticker"), pys ("exchange")])
    (hrows : ∀ row ∈ (st.sec_registry.getD freshReg).data, 4 ≤ row.length) :
    (∀ row c n t e rest2,
        (st.sec_registry.getD freshReg).data.find? (rowHasCell 2 (upperStr v))
            = some row →
        row = c :: (n :: (t :: (e :: rest2))) →
        (c ∉ st.seen_ciks →
          Firm_init chooser st freshReg none (some v) none
            = ({ seen_ciks := c :: st.seen_ciks,
                 sec_registry := some (st.sec_registry.getD freshReg) },
               Except.ok ⟨c, n, t, e⟩))
        ∧ (c ∈ st.seen_ciks →
            Firm_init chooser st freshReg none (some v) none
              = ({ st with sec_registry := some (st.sec_registry.getD freshReg) },
                 Except.error FirmError.lookupError)))
    ∧ ((st.sec_registry.getD freshReg).data.find? (rowHasCell 2 (upperStr v)) = none →
        Firm_init chooser st freshReg none (some v) none
          = ({ st with sec_registry := some (st.sec_registry.getD freshReg) },
             Except.error FirmError.notFound))
    ∧ ((st.sec_registry.getD freshReg).data = [] → chooser (upperStr v) [] = none →
        Firm_init chooser st freshReg none none (some v)
          = ({ st with sec_registry := some (st.sec_registry.getD freshReg) },
             Except.error FirmError.notFound))
    ∧ (∀ reg2, (Firm_init chooser st reg2 none (some v) none).1.sec_registry
        = some (st.sec_registry.getD reg2)) := by
  have hfi : fieldIndex (st.sec_registry.getD freshReg).fields (pys ("ticker"))
      = some 2 := by
    rw [hfields]
    decide
  have hm : rowsMatching (st.sec_registry.getD freshReg).data 2 (upperStr v)
      = some ((st.sec_registry.getD freshReg).data.filter (rowHasCell 2 (upperStr v))) :=
    rowsMatching_eq _ 2 _ (fun r hr => by have := hrows r hr; omega)
  refine ⟨?_, ?_, ?_, ?_⟩
  · intro row c n t e rest2 hfind hrow
    have hh : ((st.sec_registry.getD freshReg).data.filter
        (rowHasCell 2 (upperStr v))).head? = some row := by
      rw [head_filter_eq_find]
      exact hfind
    have hrun : Firm_init chooser st freshReg none (some v) none
        = Firm_provision st freshReg (Except.ok row) := by
      rw [Firm_init_ticker, firmRegistryLookup_ticker,
        exactLookup_eq (upperStr v) hfi, matchedRow_eq hm, headOrNotFound_some hh]
    subst hrow
    constructor
    · intro hmem
      rw [hrun, Firm_provision_ok, if_neg hmem]
    · intro hmem
      rw [hrun, Firm_provision_ok, if_pos hmem]
  · intro hfind
    have hh : ((st.sec_registry.getD freshReg).data.filter
        (rowHasCell 2 (upperStr v))).head? = none := by
      rw [head_filter_eq_find]
      exact hfind
    rw [Firm_init_ticker, firmRegistryLookup_ticker, exactLookup_eq (upperStr v) hfi,
      matchedRow_eq hm, headOrNotFound_none hh, Firm_provision_error]
  · intro hdata hch
    have hn : namesColumn (st.sec_registry.getD freshReg).data = some [] := by
      rw [hdata]
      rfl
    rw [Firm_init_name, firmRegistryLookup_name, fuzzyLookup_eq chooser (upperStr v) hn,
      fuzzyChoose_none hch, Firm_provision_error]
  · intro reg2
    rw [Firm_init_ticker]
    exact Firm_provision_fst_registry st reg2 _

/-- C9 counterexample: resolving ticker `aapl` succeeds the first time and
records the cik, but resolving the *same* firm a second time in the same
process raises `LookupError` — the code does not "still succeed from the
cache", refuting the claim. -/
theorem firm_reinit_counterexample :
    Firm_init chooserNone stEmpty regA none (some (pys ("aapl"))) none
      = (⟨[pys ("320193")], some regA⟩,
          Except.ok ⟨pys ("320193"), pys ("APPLE INC"), pys ("AAPL"), pys ("Nasdaq")⟩)
    ∧ Firm_init chooserNone ⟨[pys ("320193")], some regA⟩ regA
        none (some (pys ("aapl"))) none
      = (⟨[pys ("320193")], some regA⟩, Except.error FirmError.lookupError) := by
  refine ⟨by decide, by decide⟩

/-- C9 witness: the amended theorem applied to the fresh state and the
one-row sample registry with ticker key `aapl`. -/
theorem firm_resolution_characterization_witness :
    ((stEmpty.sec_registry.getD regA).fields
        = [pys ("cik"), pys ("name"), pys ("ticker"), pys ("exchange")]
      ∧ (∀ row ∈ (stEmpty.sec_registry.getD regA).data, 4 ≤ row.length))
    ∧ ((∀ row c n t e rest2,
          (stEmpty.sec_registry.getD regA).data.find?
              (rowHasCell 2 (upperStr (pys ("aapl")))) = some row →
          row = c :: (n :: (t :: (e :: rest2))) →
          (c ∉ stEmpty.seen_ciks →
            Firm_init chooserNone stEmpty regA none (some (pys ("aapl"))) none
              = ({ seen_ciks := c :: stEmpty.seen_ciks,
                   sec_registry := some (stEmpty.sec_registry.getD regA) },
                 Except.ok ⟨c, n, t, e⟩))
          ∧ (c ∈ stEmpty.seen_ciks →
              Firm_init chooserNone stEmpty regA none (some (pys ("aapl"))) none
                = ({ stEmpty with sec_registry := some (stEmpty.sec_registry.getD regA) },
                   Except.error FirmError.lookupError)))
      ∧ ((stEmpty.sec_registry.getD regA).data.find?
            (rowHasCell 2 (upperStr (pys ("aapl")))) = none →
          Firm_init chooserNone stEmpty regA none (some (pys ("aapl"))) none
            = ({ stEmpty with sec_registry := some (stEmpty.sec_registry.getD regA) },
               Except.error FirmError.notFound))
      ∧ ((stEmpty.sec_registry.getD regA).data = [] →
          chooserNone (upperStr (pys ("aapl"))) [] = none →
          Firm_init chooserNone stEmpty regA none none (some (pys ("aapl")))
            = ({ stEmpty with sec_registry := some (stEmpty.sec_registry.getD regA) },
               Except.error FirmError.notFound))
      ∧ (∀ reg2, (Firm_init chooserNone stEmpty reg2
            none (some (pys ("aapl"))) none).1.sec_registry
          = some (stEmpty.sec_registry.getD reg2))) :=
  ⟨⟨by decide, by decide⟩,
    firm_resolution_characterization chooserNone stEmpty regA (pys ("aapl"))
      (by decide) (by decide)⟩

end SecEdgar
